import Mathlib

/-!
# bps3D `fly` viewer: tile compositor, frame loop and camera update

A shallow embedding of `src/bin/fly.cpp`.

* Machine integers are natural numbers with explicit wrap-around:
  `glm::u32vec2` components and `uint32_t` values are reduced modulo `2^32`,
  `size_t` values modulo `2^64`.  Values of type `int` (`tiles_x`, `tiles_y`,
  the loop counters and `batch_idx`) are modelled exactly; they are
  non-negative in the program.
* Device memory is a function from byte addresses to bytes, a CUDA array is
  its extent together with a function from (row, byte column) to bytes.
* Calls into CUDA, OpenGL, GLFW and the renderer are events of a trace; the
  results of the fallible ones are read from a `World`.
* The `assert`s of the source are taken to be compiled in: a failed
  assertion stops the program.
-/

namespace Fly

/-! ## Machine arithmetic -/

/-- Wrap-around of 32-bit unsigned arithmetic (`uint32_t`, `glm::u32`). -/
def u32 (n : Nat) : Nat := n % 2 ^ 32

/-- Wrap-around of `size_t` arithmetic on the 64-bit target. -/
def usize (n : Nat) : Nat := n % 2 ^ 64

/-! ## Tile layout (fly.cpp, lines 126-129, 137) -/

/-- The compile-time configuration of `main`: `tiles_x`, `tiles_y`,
`out_dim` and `num_buffers`. -/
structure Config where
  tiles_x : Nat
  tiles_y : Nat
  out_dim : Nat × Nat
  num_buffers : Nat
deriving DecidableEq, Repr

/-- The values written in the source: a 3 x 4 grid of 256 x 256 tiles and a
single buffer. -/
def flyConfig : Config :=
  { tiles_x := 3, tiles_y := 4, out_dim := (256, 256), num_buffers := 1 }

/-- Line 129: `glm::u32vec2 img_dims(out_dim.x * tiles_x, out_dim.y * tiles_y)`. -/
def img_dims (out_dim : Nat × Nat) (tiles_x tiles_y : Nat) : Nat × Nat :=
  (u32 (out_dim.1 * tiles_x), u32 (out_dim.2 * tiles_y))

/-- Line 152: `constexpr int num_envs = tiles_x * tiles_y`. -/
def num_envs (tiles_x tiles_y : Nat) : Nat := tiles_x * tiles_y

/-! ## The copy calls (fly.cpp, lines 308-334) -/

/-- The arguments of one `cudaMemcpy2DToArrayAsync(dst, wOffset, hOffset,
src, spitch, width, height, kind, stream)` call.  `wOffset`, `spitch` and
`width` are in bytes, `hOffset` and `height` in rows; `srcOff` is the byte
offset of `src` from the pointer `output`. -/
structure Copy2D where
  wOffset : Nat
  hOffset : Nat
  srcOff : Nat
  spitch : Nat
  width : Nat
  height : Nat
deriving DecidableEq, Repr

/-- Line 314: `int batch_idx = y * tiles_x + x`.  (The variable `offset` of
line 315 is never read.) -/
def batch_idx (tiles_x x y : Nat) : Nat := y * tiles_x + x

/-- Lines 317-325: the copy issued for tile `(x, y)`.  Products of two
`uint32_t` operands wrap at 32 bits before they are widened by the
multiplication with `sizeof(uint8_t)`. -/
def tileCopy (out_dim : Nat × Nat) (tiles_x x y : Nat) : Copy2D :=
  { wOffset := usize (usize (u32 (out_dim.1 * u32 x) * 1) * 4)
    hOffset := u32 (out_dim.2 * u32 y)
    srcOff := usize (usize (usize (u32 (out_dim.2 * out_dim.1) * 1) * 4) *
      usize (batch_idx tiles_x x y))
    spitch := usize (usize (out_dim.1 * 1) * 4)
    width := usize (usize (out_dim.1 * 1) * 4)
    height := out_dim.2 }

/-- Lines 311-327: the copies in the order in which the nested loops issue
them, `x` in the outer loop and `y` in the inner one. -/
def tileCopies (out_dim : Nat × Nat) (tiles_x tiles_y : Nat) : List Copy2D :=
  (List.range tiles_x).flatMap fun x =>
    (List.range tiles_y).map fun y => tileCopy out_dim tiles_x x y

/-- Lines 330-333: the single copy of the `else` branch. -/
def fullCopy (dims : Nat × Nat) : Copy2D :=
  { wOffset := 0
    hOffset := 0
    srcOff := 0
    spitch := usize (usize (dims.1 * 1) * 4)
    width := usize (usize (dims.1 * 1) * 4)
    height := dims.2 }

/-- Lines 308-334: the copies of one frame, by the branch on `num_envs > 1`. -/
def frameCopies (cfg : Config) : List Copy2D :=
  if num_envs cfg.tiles_x cfg.tiles_y > 1 then
    tileCopies cfg.out_dim cfg.tiles_x cfg.tiles_y
  else
    [fullCopy (img_dims cfg.out_dim cfg.tiles_x cfg.tiles_y)]

/-! ## CUDA arrays and the effect of a copy -/

/-- A two-dimensional CUDA array of RGBA8 texels: `width` texels (four bytes
each) by `height` rows. -/
structure CudaArray where
  width : Nat
  height : Nat
  data : Nat → Nat → Nat

/-- The byte-level rectangle written by a copy contains row `r`, byte
column `c`. -/
def Copy2D.covers (k : Copy2D) (r c : Nat) : Bool :=
  decide (k.hOffset ≤ r) && decide (r < k.hOffset + k.height) &&
    decide (k.wOffset ≤ c) && decide (c < k.wOffset + k.width)

/-- The rectangle of a copy lies inside an array of the given extent, and
its rows fit the source pitch: the condition under which
`cudaMemcpy2DToArray` accepts its arguments. -/
def Copy2D.fits (k : Copy2D) (width height : Nat) : Bool :=
  decide (k.wOffset + k.width ≤ width * 4) &&
    decide (k.hOffset + k.height ≤ height) && decide (k.width ≤ k.spitch)

/-- The byte a copy writes at row `r`, byte column `c` of its rectangle:
row `r - hOffset` of the source, `spitch` bytes per source row. -/
def Copy2D.value (k : Copy2D) (mem : Nat → Nat) (output : Nat) (r c : Nat) : Nat :=
  mem (output + k.srcOff + (r - k.hOffset) * k.spitch + (c - k.wOffset))

/-- The behaviour of `cudaMemcpy2DToArrayAsync` as documented by the CUDA
runtime API: `height` rows of `width` bytes are copied from `src` (rows
`spitch` bytes apart) to the array at byte column `wOffset`, row `hOffset`;
a rectangle that does not fit is rejected with an error and nothing is
copied.  Copies enqueued on one stream take effect in order.  The result is
the array and whether the call returned `cudaSuccess`. -/
def cudaMemcpy2DToArrayAsync (dst : CudaArray) (mem : Nat → Nat) (output : Nat)
    (k : Copy2D) : CudaArray × Bool :=
  if k.fits dst.width dst.height then
    ({ dst with data := fun r c =>
        if k.covers r c then k.value mem output r c else dst.data r c }, true)
  else (dst, false)

/-- The copies of a list applied in order; `res` is overwritten by every
call, as in the loop of lines 311-327. -/
def runCopies (mem : Nat → Nat) (output : Nat) :
    List Copy2D → CudaArray × Bool → CudaArray × Bool
  | [], st => st
  | k :: ks, st => runCopies mem output ks (cudaMemcpy2DToArrayAsync st.1 mem output k)

/-- Lines 308-334 on the data: the destination array and the value of `res`
after the copies of one frame, `res` being `cudaSuccess` before them. -/
def composite (cfg : Config) (mem : Nat → Nat) (output : Nat) (dst : CudaArray) :
    CudaArray × Bool :=
  runCopies mem output (frameCopies cfg) (dst, true)

/-- The array a texture of `img_dims` texels is mapped to (line 164,
`glTextureStorage2D(..., GL_RGBA8, img_dims.x, img_dims.y)`). -/
def textureArray (cfg : Config) (data : Nat → Nat → Nat) : CudaArray :=
  { width := (img_dims cfg.out_dim cfg.tiles_x cfg.tiles_y).1
    height := (img_dims cfg.out_dim cfg.tiles_x cfg.tiles_y).2
    data := data }

/-- The four bytes (R, G, B, A) of the texel in column `px`, row `py`. -/
def CudaArray.pixel (a : CudaArray) (px py : Nat) : List Nat :=
  (List.range 4).map fun c => a.data py (px * 4 + c)

/-- The four bytes of the RGBA8 pixel stored at byte address `addr`. -/
def srcPixel (mem : Nat → Nat) (addr : Nat) : List Nat :=
  (List.range 4).map fun c => mem (addr + c)

/-- The destination origin of a copy in pixels: `wOffset` is in bytes, four
per pixel. -/
def Copy2D.origin (k : Copy2D) : Nat × Nat := (k.wOffset / 4, k.hOffset)

/-- The index of the environment whose block of `out_dim.x * out_dim.y * 4`
bytes a copy reads. -/
def Copy2D.env (out_dim : Nat × Nat) (k : Copy2D) : Nat :=
  k.srcOff / (out_dim.1 * out_dim.2 * 4)

/-- The destination origins in row-major tile order, `(0,0), (w,0), ...,
(0,h), ...`: the order the specification gives for the copies of a frame. -/
def specOriginsRowMajor (cfg : Config) : List (Nat × Nat) :=
  (List.range cfg.tiles_y).flatMap fun y =>
    (List.range cfg.tiles_x).map fun x => (cfg.out_dim.1 * x, cfg.out_dim.2 * y)

/-! ## The frame loop (fly.cpp, lines 223-360) -/

/-- The calls of the frame loop that reach the renderer, CUDA or the
presentation surface, in the order of the source, together with the ways
the program can stop.  `slot` is the index `prev_frame` used to select
`read_fbos`, `dst_imgs` and `copy_streams`; `line` is the source line of
the `assert` or `abort()`. -/
inductive Event where
  | render (ret : Nat)
  | waitForFrame (frame : Nat)
  | getColorPointer (frame : Nat)
  | detachTexture (slot : Nat)
  | mapResources (slot : Nat)
  | getMappedArray (slot : Nat)
  | memcpy2D (slot : Nat) (k : Copy2D)
  | logCopyFailed
  | streamSynchronize (slot : Nat)
  | unmapResources (slot : Nat)
  | attachTexture (slot : Nat)
  | blit (slot : Nat)
  | swapBuffers
  | assertFailed (line : Nat)
  | abort (line : Nat)
deriving DecidableEq, Repr

/-- The results of the external calls: the frame index returned by the
`n`-th call of `renderer.render` (call 0 is the one before the loop), and,
for iteration `i`, whether `cudaGraphicsMapResources`,
`cudaGraphicsSubResourceGetMappedArray`, the `j`-th copy of the iteration
and `cudaGraphicsUnmapResources` return `cudaSuccess`. -/
structure World where
  render : Nat → Nat
  mapOk : Nat → Bool
  getArrayOk : Nat → Bool
  copyOk : Nat → Nat → Bool
  unmapOk : Nat → Bool

/-- Lines 308-334: the copy calls of one frame on the stream of `slot`.
Every call overwrites `res`; the result is the trace and the final `res`.
`j` counts the copies of the iteration. -/
def issueCopies (ok : Nat → Bool) (slot : Nat) : List Copy2D → Nat → Bool → List Event × Bool
  | [], _, res => ([], res)
  | k :: ks, j, _ =>
    let r := issueCopies ok slot ks (j + 1) (ok j)
    (Event.memcpy2D slot k :: r.1, r.2)

/-- Lines 308-338: the copies of one frame followed by the check of `res`,
which holds the result of the last copy issued: a failure is reported on
`cerr` and nothing else happens. -/
def copyPhase (cfg : Config) (ok : Nat → Bool) (slot : Nat) : List Event :=
  (issueCopies ok slot (frameCopies cfg) 0 true).1 ++
    (if (issueCopies ok slot (frameCopies cfg) 0 true).2 = true then []
     else [Event.logCopyFailed])

/-- Lines 277-359: one iteration of the loop, `i` being its index.  The
result is the trace of the iteration and the next value of `prev_frame`, or
`none` when the program stopped in an `assert` or `abort()`. -/
def iteration (cfg : Config) (W : World) (i prev_frame : Nat) : List Event × Option Nat :=
  if cfg.num_buffers ≠ 2 ∧ W.render (i + 1) ≠ 0 then
    ([Event.render (W.render (i + 1)), Event.assertFailed 283], none)
  else if cfg.num_buffers ≠ 2 ∧ W.render (i + 1) ≠ prev_frame then
    ([Event.render (W.render (i + 1)), Event.assertFailed 284], none)
  else if W.mapOk i = false then
    ([Event.render (W.render (i + 1)), Event.waitForFrame prev_frame,
      Event.getColorPointer prev_frame, Event.detachTexture prev_frame,
      Event.mapResources prev_frame, Event.abort 297], none)
  else if W.getArrayOk i = false then
    ([Event.render (W.render (i + 1)), Event.waitForFrame prev_frame,
      Event.getColorPointer prev_frame, Event.detachTexture prev_frame,
      Event.mapResources prev_frame, Event.getMappedArray prev_frame, Event.abort 305], none)
  else if W.unmapOk i = false then
    ([Event.render (W.render (i + 1)), Event.waitForFrame prev_frame,
      Event.getColorPointer prev_frame, Event.detachTexture prev_frame,
      Event.mapResources prev_frame, Event.getMappedArray prev_frame] ++
      copyPhase cfg (W.copyOk i) prev_frame ++
      [Event.streamSynchronize prev_frame, Event.unmapResources prev_frame, Event.abort 347],
      none)
  else
    ([Event.render (W.render (i + 1)), Event.waitForFrame prev_frame,
      Event.getColorPointer prev_frame, Event.detachTexture prev_frame,
      Event.mapResources prev_frame, Event.getMappedArray prev_frame] ++
      copyPhase cfg (W.copyOk i) prev_frame ++
      [Event.streamSynchronize prev_frame, Event.unmapResources prev_frame,
       Event.attachTexture prev_frame, Event.blit prev_frame, Event.swapBuffers],
      some (W.render (i + 1)))

/-- Lines 226-360: `n` iterations of the loop (the window is closed after
them), starting with iteration `i`.  The result is the trace and whether
the program stopped in an `assert` or `abort()`. -/
def mainLoop (cfg : Config) (W : World) : Nat → Nat → Nat → List Event × Bool
  | 0, _, _ => ([], false)
  | n + 1, i, prev_frame =>
    match iteration cfg W i prev_frame with
    | (t, none) => (t, true)
    | (t, some new_frame) =>
      let r := mainLoop cfg W n (i + 1) new_frame
      (t ++ r.1, r.2)

/-- Lines 223-360: the dispatch before the loop (`prev_frame =
renderer.render(envs.data())`) and then `n` iterations. -/
def run (cfg : Config) (W : World) (n : Nat) : List Event × Bool :=
  let r := mainLoop cfg W n 0 (W.render 0)
  (Event.render (W.render 0) :: r.1, r.2)

/-- A world in which the renderer returns frame 0 and no call fails. -/
def okWorld : World :=
  { render := fun _ => 0, mapOk := fun _ => true, getArrayOk := fun _ => true,
    copyOk := fun _ _ => true, unmapOk := fun _ => true }

/-- A world in which every copy returns an error and all else succeeds. -/
def copyFailWorld : World :=
  { okWorld with copyOk := fun _ _ => false }

/-! ### Properties of traces -/

/-- Single-buffer check of a trace: no assertion fails, and every
`waitForFrame f` comes directly after a `render` that returned the same
handle `f`, which is 0. -/
def dispatchWaitOk : List Event → Bool
  | [] => true
  | Event.render r :: Event.waitForFrame f :: rest =>
    decide (r = f) && decide (f = 0) && dispatchWaitOk rest
  | Event.waitForFrame _ :: _ => false
  | Event.assertFailed _ :: _ => false
  | _ :: rest => dispatchWaitOk rest

/-- The boundary calls named by the serialization property. -/
inductive Call where
  | render | wait | copy | sync | blit | swap
deriving DecidableEq, Repr

/-- The boundary call an event stands for, if any. -/
def Event.call : Event → Option Call
  | Event.render _ => some Call.render
  | Event.waitForFrame _ => some Call.wait
  | Event.memcpy2D _ _ => some Call.copy
  | Event.streamSynchronize _ => some Call.sync
  | Event.blit _ => some Call.blit
  | Event.swapBuffers => some Call.swap
  | _ => none

/-- The position within the cycle render, wait, copies, sync, blit, swap. -/
inductive Phase where
  | idle | rendered | waited | copying | synced | blitted
deriving DecidableEq, Repr

/-- One step of the cycle: a render is accepted only when the previous
frame has been presented (or nothing was dispatched yet), a wait only right
after a render, and so on; `none` when the call is out of order. -/
def serialStep : Phase → Call → Option Phase
  | Phase.idle, Call.render => some Phase.rendered
  | Phase.rendered, Call.wait => some Phase.waited
  | Phase.waited, Call.copy => some Phase.copying
  | Phase.copying, Call.copy => some Phase.copying
  | Phase.copying, Call.sync => some Phase.synced
  | Phase.synced, Call.blit => some Phase.blitted
  | Phase.blitted, Call.swap => some Phase.idle
  | _, _ => none

/-- The cycle run over a sequence of calls. -/
def serialRun : List Call → Phase → Option Phase
  | [], p => some p
  | c :: cs, p =>
    match serialStep p c with
    | none => none
    | some q => serialRun cs q

/-- The boundary calls of a trace. -/
def calls (t : List Event) : List Call := t.filterMap Event.call

/-- One step of the map/unmap discipline, `mapped` being the slots
currently mapped: a slot is mapped only when unmapped and unmapped only
when mapped, a copy needs its slot mapped, a blit needs its slot unmapped
and a buffer swap needs every slot unmapped. -/
def mapStep (mapped : List Nat) : Event → Option (List Nat)
  | Event.mapResources s => if s ∈ mapped then none else some (s :: mapped)
  | Event.unmapResources s => if s ∈ mapped then some (mapped.erase s) else none
  | Event.memcpy2D s _ => if s ∈ mapped then some mapped else none
  | Event.blit s => if s ∈ mapped then none else some mapped
  | Event.swapBuffers => if mapped = [] then some mapped else none
  | _ => some mapped

/-- The map/unmap discipline run over a trace. -/
def mapDiscipline : List Event → List Nat → Option (List Nat)
  | [], m => some m
  | e :: es, m =>
    match mapStep m e with
    | none => none
    | some m' => mapDiscipline es m'

/-- Events other than a dispatch, a wait and a failed assertion. -/
def Event.isOther : Event → Bool
  | Event.render _ => false
  | Event.waitForFrame _ => false
  | Event.assertFailed _ => false
  | _ => true

/-- The boundary calls of one full iteration: render, wait, one copy per
entry of `frameCopies`, sync, blit, swap. -/
def cycle (cfg : Config) : List Call :=
  [Call.render, Call.wait] ++ List.replicate (frameCopies cfg).length Call.copy ++
    [Call.sync, Call.blit, Call.swap]

/-- A world in which the first copy of every iteration returns an error and
all else succeeds. -/
def firstCopyFailWorld : World :=
  { okWorld with copyOk := fun _ j => decide (j ≠ 0) }

/-! ## The camera update (fly.cpp, lines 19-21, 185-190, 243-265)

The scalars are the elements of a field `K`; the functions of the C math
library used by GLM are passed in a `Libm`.  Over the real numbers, with
the real sine, cosine and square root, this is the update in exact
arithmetic; rounding of `float` is not modelled. -/

/-- The functions `sin`, `cos` and `sqrt` as used by GLM. -/
structure Libm (K : Type) where
  sin : K → K
  cos : K → K
  sqrt : K → K

/-- A `glm::vec3`. -/
@[ext] structure Vec3 (K : Type) where
  x : K
  y : K
  z : K

/-- A `glm::quat`, with the scalar part `w`. -/
structure Quat (K : Type) where
  w : K
  x : K
  y : K
  z : K

/-- A `glm::mat3`, stored by columns: `c0`, `c1`, `c2` are `m[0]`, `m[1]`,
`m[2]`. -/
structure Mat3 (K : Type) where
  c0 : Vec3 K
  c1 : Vec3 K
  c2 : Vec3 K

/-- The `CameraState` of lines 46-51. -/
@[ext] structure CameraState (K : Type) where
  eye : Vec3 K
  fwd : Vec3 K
  up : Vec3 K
  right : Vec3 K

section Camera

variable {K : Type} [Field K]

/-- Sum of two vectors, `a + b`. -/
def Vec3.add (a b : Vec3 K) : Vec3 K := ⟨a.x + b.x, a.y + b.y, a.z + b.z⟩

/-- Product of a vector and a scalar, `v * s`. -/
def Vec3.scale (v : Vec3 K) (s : K) : Vec3 K := ⟨v.x * s, v.y * s, v.z * s⟩

/-- The scalar product `glm::dot`. -/
def Vec3.dot (a b : Vec3 K) : K := a.x * b.x + a.y * b.y + a.z * b.z

/-- The vector product `glm::cross(x, y)`. -/
def Vec3.cross (a b : Vec3 K) : Vec3 K :=
  ⟨a.y * b.z - b.y * a.z, a.z * b.x - b.z * a.x, a.x * b.y - b.x * a.y⟩

/-- The function `glm::normalize(v)`, that is `v * inversesqrt(dot(v, v))`. -/
def Vec3.normalize (m : Libm K) (v : Vec3 K) : Vec3 K :=
  v.scale (1 / m.sqrt (v.dot v))

/-- The function `glm::angleAxis(angle, v)`: the quaternion with scalar part
`cos(angle * 0.5)` and vector part `v * sin(angle * 0.5)`; the axis is not
normalized. -/
def angleAxis (m : Libm K) (angle : K) (v : Vec3 K) : Quat K :=
  ⟨m.cos (angle * (1 / 2)), v.x * m.sin (angle * (1 / 2)), v.y * m.sin (angle * (1 / 2)),
    v.z * m.sin (angle * (1 / 2))⟩

/-- The conversion `glm::mat3_cast(q)` behind `glm::mat3(q)`. -/
def mat3_cast (q : Quat K) : Mat3 K :=
  { c0 := ⟨1 - 2 * (q.y * q.y + q.z * q.z), 2 * (q.x * q.y + q.w * q.z),
      2 * (q.x * q.z - q.w * q.y)⟩
    c1 := ⟨2 * (q.x * q.y - q.w * q.z), 1 - 2 * (q.x * q.x + q.z * q.z),
      2 * (q.y * q.z + q.w * q.x)⟩
    c2 := ⟨2 * (q.x * q.z + q.w * q.y), 2 * (q.y * q.z - q.w * q.x),
      1 - 2 * (q.x * q.x + q.y * q.y)⟩ }

/-- Product of a matrix and a column vector, `m * v`. -/
def Mat3.mulVec (m : Mat3 K) (v : Vec3 K) : Vec3 K :=
  ⟨m.c0.x * v.x + m.c1.x * v.y + m.c2.x * v.z,
   m.c0.y * v.x + m.c1.y * v.y + m.c2.y * v.z,
   m.c0.z * v.x + m.c1.z * v.y + m.c2.z * v.z⟩

/-- Product of two matrices, `a * b`: its columns are `a` times the columns
of `b`. -/
def Mat3.mul (a b : Mat3 K) : Mat3 K :=
  ⟨a.mulVec b.c0, a.mulVec b.c1, a.mulVec b.c2⟩

/-- Line 19: `mouse_speed = 10e-4`. -/
def mouse_speed : K := 1 / 1000

/-- Line 20: `movement_speed = 6.f`. -/
def movement_speed : K := 6

/-- Line 21: `rotate_speed = 1.25`. -/
def rotate_speed : K := 5 / 4

/-- Lines 243-265: the camera update of one frame, from the mouse delta, the
key accumulator `key_movement = (x, y, z)` and the elapsed time. -/
def cameraUpdate (m : Libm K) (cam : CameraState K) (mouse_delta : K × K)
    (key_movement : Int × Int × Int) (time_delta : K) : CameraState K :=
  let right0 := cam.fwd.cross cam.up
  let around_right := mat3_cast (angleAxis m (mouse_delta.2 * mouse_speed) right0)
  let up1 := around_right.mulVec cam.up
  let around_up := mat3_cast (angleAxis m (-mouse_delta.1 * mouse_speed) up1)
  let fwd1 := (around_up.mul around_right).mulVec cam.fwd
  let around_fwd :=
    mat3_cast (angleAxis m ((key_movement.2.2 : K) * rotate_speed * time_delta) fwd1)
  let up2 := around_fwd.mulVec up1
  let right2 := (around_fwd.mul around_up).mulVec right0
  let movement : K × K :=
    (movement_speed * time_delta * (key_movement.1 : K),
     movement_speed * time_delta * (key_movement.2.1 : K))
  { eye := cam.eye.add ((right2.scale movement.1).add (fwd1.scale movement.2))
    fwd := fwd1.normalize m
    up := up2.normalize m
    right := right2.normalize m }

/-- Lines 185-190: the camera before the first frame. -/
def initialCamera : CameraState K :=
  { eye := ⟨0, 0, 0⟩, fwd := ⟨0, 0, 1⟩, up := ⟨0, 1, 0⟩, right := ⟨1, 0, 0⟩ }

/-- The camera after a sequence of frames, each given by its mouse delta,
key accumulator and elapsed time. -/
def cameraRun (m : Libm K) (cam : CameraState K) :
    List ((K × K) × (Int × Int × Int) × K) → CameraState K
  | [] => cam
  | inp :: rest => cameraRun m (cameraUpdate m cam inp.1 inp.2.1 inp.2.2) rest

/-- The vectors `fwd`, `up` and `right` have length 1 (their scalar square
is 1) and are pairwise orthogonal. -/
def CameraState.Orthonormal (cam : CameraState K) : Prop :=
  cam.fwd.dot cam.fwd = 1 ∧ cam.up.dot cam.up = 1 ∧ cam.right.dot cam.right = 1 ∧
    cam.fwd.dot cam.up = 0 ∧ cam.fwd.dot cam.right = 0 ∧ cam.up.dot cam.right = 0

end Camera

/-- The arguments of a copy event. -/
def Event.copyArgs : Event → Option Copy2D
  | Event.memcpy2D _ k => some k
  | _ => none

/-! ## The key handler (fly.cpp, lines 53-104) -/

/-- The values of the `action` argument GLFW passes to a key callback
(glfw3.h: `GLFW_RELEASE` is 0, `GLFW_PRESS` is 1, `GLFW_REPEAT` is 2). -/
inductive Action where
  | GLFW_RELEASE
  | GLFW_PRESS
  | GLFW_REPEAT
deriving DecidableEq, Repr

/-- The modes of the cursor set by `glfwSetInputMode(window, GLFW_CURSOR, _)`. -/
inductive CursorMode where
  | GLFW_CURSOR_NORMAL
  | GLFW_CURSOR_DISABLED
deriving DecidableEq, Repr

/-- Key code of glfw3.h. -/
def GLFW_KEY_ESCAPE : Int := 256

/-- Key code of glfw3.h. -/
def GLFW_KEY_ENTER : Int := 257

/-- Key code of glfw3.h. -/
def GLFW_KEY_W : Int := 87

/-- Key code of glfw3.h. -/
def GLFW_KEY_A : Int := 65

/-- Key code of glfw3.h. -/
def GLFW_KEY_S : Int := 83

/-- Key code of glfw3.h. -/
def GLFW_KEY_D : Int := 68

/-- Key code of glfw3.h. -/
def GLFW_KEY_Q : Int := 81

/-- Key code of glfw3.h. -/
def GLFW_KEY_E : Int := 69

/-- Conversion of an `int` to `glm::i8` (`int8_t`): reduction modulo 256 into
the range -128 .. 127. -/
def i8 (n : Int) : Int := (n + 128) % 256 - 128

/-- What the handler reads and writes: the global `key_movement` (line 53)
and the cursor mode of the window. -/
structure InputState where
  key_movement : Int × Int × Int
  cursor : CursorMode
deriving DecidableEq, Repr

/-- Lines 59-97: the local `cur_movement` after the `switch (key)`, starting
from `(0, 0, 0)`. -/
def cur_movement (key : Int) : Int × Int × Int :=
  if key = GLFW_KEY_ESCAPE then (0, 0, 0)
  else if key = GLFW_KEY_ENTER then (0, 0, 0)
  else if key = GLFW_KEY_W then (0, i8 (0 + 1), 0)
  else if key = GLFW_KEY_A then (i8 (0 - 1), 0, 0)
  else if key = GLFW_KEY_S then (0, i8 (0 - 1), 0)
  else if key = GLFW_KEY_D then (i8 (0 + 1), 0, 0)
  else if key = GLFW_KEY_Q then (0, 0, i8 (0 - 1))
  else if key = GLFW_KEY_E then (0, 0, i8 (0 + 1))
  else (0, 0, 0)

/-- Lines 61-72: the cursor mode after the `switch (key)`: Escape pressed
frees the cursor, Enter pressed captures it. -/
def cursorAfter (cursor : CursorMode) (key : Int) (action : Action) : CursorMode :=
  if key = GLFW_KEY_ESCAPE then
    (if action = Action.GLFW_PRESS then CursorMode.GLFW_CURSOR_NORMAL else cursor)
  else if key = GLFW_KEY_ENTER then
    (if action = Action.GLFW_PRESS then CursorMode.GLFW_CURSOR_DISABLED else cursor)
  else cursor

/-- Lines 55-104: `windowKeyHandler(window, key, scancode, action, mods)`.
A repeat returns at once; otherwise `cur_movement` is added to
`key_movement` on a press and subtracted from it on any other action,
component by component in `int8_t`. -/
def windowKeyHandler (st : InputState) (key : Int) (action : Action) : InputState :=
  if action = Action.GLFW_REPEAT then st
  else if action = Action.GLFW_PRESS then
    { key_movement :=
        (i8 (st.key_movement.1 + (cur_movement key).1),
         i8 (st.key_movement.2.1 + (cur_movement key).2.1),
         i8 (st.key_movement.2.2 + (cur_movement key).2.2))
      cursor := cursorAfter st.cursor key action }
  else
    { key_movement :=
        (i8 (st.key_movement.1 - (cur_movement key).1),
         i8 (st.key_movement.2.1 - (cur_movement key).2.1),
         i8 (st.key_movement.2.2 - (cur_movement key).2.2))
      cursor := cursorAfter st.cursor key action }

/-- A key event as delivered to the callback. -/
structure KeyEvent where
  key : Int
  action : Action
deriving DecidableEq, Repr

/-- The handler run over a sequence of key events. -/
def processKeys (st : InputState) : List KeyEvent → InputState
  | [] => st
  | e :: rest => processKeys (windowKeyHandler st e.key e.action) rest

/-- The state at program start: `key_movement(0, 0, 0)`. -/
def initialInput (cursor : CursorMode) : InputState :=
  { key_movement := (0, 0, 0), cursor := cursor }

/-- The event is a press of key `k`. -/
def KeyEvent.isPress (k : Int) (e : KeyEvent) : Bool :=
  decide (e.key = k) && decide (e.action = Action.GLFW_PRESS)

/-- The event is a release of key `k`. -/
def KeyEvent.isRelease (k : Int) (e : KeyEvent) : Bool :=
  decide (e.key = k) && decide (e.action = Action.GLFW_RELEASE)

/-- Key `k` is held after the sequence, in the words of the specification:
its last press has no later release, that is, some press of `k` is followed
by no release of `k`. -/
def held (k : Int) : List KeyEvent → Bool
  | [] => false
  | e :: rest => held k rest || (e.isPress k && !rest.any (KeyEvent.isRelease k))

/-- The number 1 for a held key and 0 otherwise. -/
def heldCount (k : Int) (evs : List KeyEvent) : Int := if held k evs then 1 else 0

/-- The press and release events of key `k` alternate, a press being due
when `down` is false and a release when it is true; repeats of `k` and
events of other keys may occur anywhere. -/
def alternatesFrom (k : Int) : Bool → List KeyEvent → Bool
  | _, [] => true
  | down, e :: rest =>
    if e.isPress k then !down && alternatesFrom k true rest
    else if e.isRelease k then down && alternatesFrom k false rest
    else alternatesFrom k down rest

/-- The press and release events of key `k` alternate beginning with a
press. -/
def alternates (k : Int) (evs : List KeyEvent) : Bool := alternatesFrom k false evs

/-- Whether key `k` is down after the events, `down` telling whether it was
down before them: a press puts it down, a release up. -/
def downFrom (k : Int) : Bool → List KeyEvent → Bool
  | down, [] => down
  | down, e :: rest =>
    if e.isPress k then downFrom k true rest
    else if e.isRelease k then downFrom k false rest
    else downFrom k down rest

/-- One component of `key_movement` run over the events, `delta` giving the
component of `cur_movement` for a key. -/
def axisRun (delta : Int → Int) (c : Int) : List KeyEvent → Int
  | [] => c
  | e :: rest =>
    if e.action = Action.GLFW_REPEAT then axisRun delta c rest
    else if e.action = Action.GLFW_PRESS then axisRun delta (i8 (c + delta e.key)) rest
    else axisRun delta (i8 (c - delta e.key)) rest

/-- The keys that move the camera. -/
def movementKeys : List Int :=
  [GLFW_KEY_W, GLFW_KEY_A, GLFW_KEY_S, GLFW_KEY_D, GLFW_KEY_Q, GLFW_KEY_E]

/-- The number 1 for `true` and 0 for `false`. -/
def ind (b : Bool) : Int := if b then 1 else 0

/-! ## Start-up (fly.cpp, lines 114-180) -/

/-- What `main` creates before the frame loop. -/
inductive Resource where
  | window
  | framebuffers
  | textures
  | renderer
  | stream (i : Nat)
  | interop (i : Nat)
deriving DecidableEq, Repr

/-- How start-up ends: `exit(EXIT_FAILURE)` or `abort()` after a message on
`cerr`, a failed `assert` (which prints the assertion and aborts), or the
resources are all there (line 182 is reached).  `line` is the source line of
the call. -/
inductive StartupEnd where
  | exitFailure (line : Nat)
  | abort (line : Nat)
  | assertFailed (line : Nat)
  | ready
deriving DecidableEq, Repr

/-- The results of the fallible calls of start-up: `glfwInit`,
`glfwCreateWindow`, `glewInit` and, for slot `i`, `cudaStreamCreate` and
`cudaGraphicsGLRegisterImage`. -/
structure StartupWorld where
  glfwInitOk : Bool
  windowOk : Bool
  glewOk : Bool
  streamOk : Nat → Bool
  registerOk : Nat → Bool

/-- Lines 163-180: the loop over the buffers, `n` iterations from index `i`,
`acc` being what exists so far. -/
def createSlots (W : StartupWorld) : Nat → Nat → List Resource → List Resource × StartupEnd
  | 0, _, acc => (acc, StartupEnd.ready)
  | n + 1, i, acc =>
    if W.streamOk i = false then (acc, StartupEnd.abort 170)
    else if W.registerOk i = false then (acc ++ [Resource.stream i], StartupEnd.abort 178)
    else createSlots W n (i + 1) (acc ++ [Resource.stream i, Resource.interop i])

/-- The size `glfwCreateWindow(dim.x, dim.y, ...)` of line 33 can be given:
the 32-bit unsigned components are passed as `int`, so that a component from
`2^31` on arrives negative, and GLFW refuses a width or height that is not
greater than zero. -/
def windowSizeOk (dim : Nat × Nat) : Bool :=
  decide (0 < dim.1) && decide (dim.1 < 2 ^ 31) && decide (0 < dim.2) &&
    decide (dim.2 < 2 ^ 31)

/-- Lines 114-180: start-up for a command line of `argc` arguments.  The
result is what has been created, in order, and how start-up ends.  The
window is created when its size can be given and GLFW reports no other
failure (`windowOk`).  The divisibility of `img_dims` is checked by the two
`assert`s of lines 155-156, after the renderer has been constructed. -/
def startup (cfg : Config) (argc : Nat) (W : StartupWorld) : List Resource × StartupEnd :=
  if argc < 2 then ([], StartupEnd.exitFailure 118)
  else if W.glfwInitOk = false then ([], StartupEnd.exitFailure 123)
  else if windowSizeOk (img_dims cfg.out_dim cfg.tiles_x cfg.tiles_y) = false then
    ([], StartupEnd.abort 37)
  else if W.windowOk = false then ([], StartupEnd.abort 37)
  else if W.glewOk = false then ([Resource.window], StartupEnd.exitFailure 134)
  else if (img_dims cfg.out_dim cfg.tiles_x cfg.tiles_y).1 % cfg.tiles_x ≠ 0 then
    ([Resource.window, Resource.framebuffers, Resource.textures, Resource.renderer],
      StartupEnd.assertFailed 155)
  else if (img_dims cfg.out_dim cfg.tiles_x cfg.tiles_y).2 % cfg.tiles_y ≠ 0 then
    ([Resource.window, Resource.framebuffers, Resource.textures, Resource.renderer],
      StartupEnd.assertFailed 156)
  else
    createSlots W cfg.num_buffers 0
      [Resource.window, Resource.framebuffers, Resource.textures, Resource.renderer]

/-- A start-up world in which no call fails. -/
def okStartup : StartupWorld :=
  { glfwInitOk := true, windowOk := true, glewOk := true, streamOk := fun _ => true,
    registerOk := fun _ => true }

/-- A configuration whose image width is not a multiple of `tiles_x`: the
product `out_dim.x * tiles_x = 4294968198` of line 129 wraps at 32 bits to
the width 902, which leaves the remainder 2 modulo 3; the image is 902 by
1024 pixels, a size a window can have. -/
def wrapConfig : Config :=
  { tiles_x := 3, tiles_y := 4, out_dim := (1431656066, 256), num_buffers := 1 }

/-! ## Reading a vector member (JsonStlTypes.h, lines 36-43 and 59-86) -/

/-- A JSON value (`JsonGenericValue` of rapidjson). -/
inductive JsonValue where
  | null
  | bool (b : Bool)
  | number (n : Int)
  | string (s : String)
  | array (elems : List JsonValue)
  | object (members : List (String × JsonValue))

/-- The member lookup `value.FindMember(tag)` of rapidjson on the members of
an object: the value of the first member named `tag`, `none` standing for
`MemberEnd()`. -/
def FindMember (members : List (String × JsonValue)) (tag : String) : Option JsonValue :=
  (members.find? fun m => m.1 == tag).map fun m => m.2

/-- Lines 36-43: `fromJsonValue(obj, val)` for `std::string`: the flag
returned and the value of `val` afterwards.  `val = obj.GetString()` assigns
from a `const char*`, so that the string ends before its first NUL
character. -/
def fromJsonValueString (obj : JsonValue) (val : String) : Bool × String :=
  match obj with
  | JsonValue.string s => (true, String.mk (s.toList.takeWhile fun c => c ≠ Char.ofNat 0))
  | _ => (false, val)

/-- Lines 72-82: the loop over the array elements.  `fromJsonValue` is the
overload for the element type, `item` the default-constructed `T item`;
the result is the flag returned (when the loop returns) or `true` (when it
runs to its end) and the contents of `vec`. -/
def readElems {T : Type} (fromJsonValue : JsonValue → T → Bool × T) (item : T) :
    List JsonValue → List T → Bool × List T
  | [], vec => (true, vec)
  | itemObj :: rest, vec =>
    if (fromJsonValue itemObj item).1 = false then (false, [])
    else readElems fromJsonValue item rest (vec ++ [(fromJsonValue itemObj item).2])

/-- Lines 59-86: `readMember(value, tag, vec)` for `std::vector<T>`: the flag
returned and the contents of `vec` afterwards; `none` when an assertion
fails, that of line 63 (`vec` is not empty) or that of rapidjson
(`FindMember` on a value that is not an object). -/
def readMember {T : Type} (fromJsonValue : JsonValue → T → Bool × T) (item : T)
    (value : JsonValue) (tag : String) (vec : List T) : Option (Bool × List T) :=
  if vec.isEmpty = false then none
  else
    match value with
    | JsonValue.object members =>
      match FindMember members tag with
      | none => some (true, vec)
      | some (JsonValue.array elems) => some (readElems fromJsonValue item elems vec)
      | some _ => some (false, vec)
    | _ => none

/-! ## Theorems: tile compositor -/

theorem u32_of_lt {n : Nat} (h : n < 2 ^ 32) : u32 n = n := Nat.mod_eq_of_lt h

theorem usize_of_lt {n : Nat} (h : n < 2 ^ 64) : usize n = n := Nat.mod_eq_of_lt h

/-- Membership in the list of tile copies: one copy per pair of loop
counters. -/
theorem mem_tileCopies {out_dim : Nat × Nat} {tiles_x tiles_y : Nat} {k : Copy2D} :
    k ∈ tileCopies out_dim tiles_x tiles_y ↔
      ∃ x, x < tiles_x ∧ ∃ y, y < tiles_y ∧ tileCopy out_dim tiles_x x y = k := by
  simp [tileCopies, List.mem_flatMap, List.mem_map, List.mem_range]

/-- Without wrap-around the copy of tile `(x, y)` has the arguments one
reads off the source. -/
theorem tileCopy_eq {w h tiles_x tiles_y x y : Nat}
    (hx : x < tiles_x) (hy : y < tiles_y)
    (hX : w * tiles_x < 2 ^ 32) (hY : h * tiles_y < 2 ^ 32) (hwh : w * h < 2 ^ 32)
    (hw : 1 ≤ w) (hh : 1 ≤ h) (hI : tiles_x * tiles_y < 2 ^ 31)
    (hB : tiles_x * tiles_y * w * h * 4 < 2 ^ 64) :
    tileCopy (w, h) tiles_x x y =
      { wOffset := w * x * 4, hOffset := h * y,
        srcOff := h * w * 4 * (y * tiles_x + x),
        spitch := w * 4, width := w * 4, height := h } := by
  have hwx : w * x ≤ w * tiles_x := Nat.mul_le_mul_left w hx.le
  have hhy : h * y ≤ h * tiles_y := Nat.mul_le_mul_left h hy.le
  have htx : tiles_x ≤ w * tiles_x := Nat.le_mul_of_pos_left tiles_x hw
  have hty : tiles_y ≤ h * tiles_y := Nat.le_mul_of_pos_left tiles_y hh
  have hw32 : w < 2 ^ 32 := lt_of_le_of_lt (Nat.le_mul_of_pos_right w hh) hwh
  have hb : y * tiles_x + x < tiles_x * tiles_y := by
    calc y * tiles_x + x < y * tiles_x + tiles_x := by omega
      _ = tiles_x * (y + 1) := by ring
      _ ≤ tiles_x * tiles_y := Nat.mul_le_mul_left _ hy
  have hb2 : h * w * 4 * (y * tiles_x + x) ≤ tiles_x * tiles_y * w * h * 4 := by
    calc h * w * 4 * (y * tiles_x + x) ≤ h * w * 4 * (tiles_x * tiles_y) :=
          Nat.mul_le_mul_left _ hb.le
      _ = tiles_x * tiles_y * w * h * 4 := by ring
  have hwh' : h * w < 2 ^ 32 := by rw [Nat.mul_comm]; exact hwh
  have hbb : y * tiles_x + x < 2 ^ 64 := by omega
  have e1 : u32 x = x := u32_of_lt (by omega)
  have e2 : u32 y = y := u32_of_lt (by omega)
  have e3 : u32 (w * x) = w * x := u32_of_lt (by omega)
  have e4 : u32 (h * y) = h * y := u32_of_lt (by omega)
  have e5 : u32 (h * w) = h * w := u32_of_lt hwh'
  have e6 : usize (w * x) = w * x := usize_of_lt (by omega)
  have e7 : usize (w * x * 4) = w * x * 4 := usize_of_lt (by omega)
  have e8 : usize (h * w) = h * w := usize_of_lt (by omega)
  have e9 : usize (h * w * 4) = h * w * 4 := usize_of_lt (by omega)
  have e10 : usize (y * tiles_x + x) = y * tiles_x + x := usize_of_lt hbb
  have e11 : usize (h * w * 4 * (y * tiles_x + x)) = h * w * 4 * (y * tiles_x + x) :=
    usize_of_lt (by omega)
  have e12 : usize w = w := usize_of_lt (by omega)
  have e13 : usize (w * 4) = w * 4 := usize_of_lt (by omega)
  simp only [tileCopy, batch_idx, Nat.mul_one, e1, e2, e3, e4, e5, e6, e7, e8, e9, e10, e11,
    e12, e13]

theorem runCopies_extent (mem : Nat → Nat) (output : Nat) (l : List Copy2D)
    (st : CudaArray × Bool) :
    (runCopies mem output l st).1.width = st.1.width ∧
      (runCopies mem output l st).1.height = st.1.height := by
  induction l generalizing st with
  | nil => exact ⟨rfl, rfl⟩
  | cons k ks ih =>
    have h := ih (cudaMemcpy2DToArrayAsync st.1 mem output k)
    simp only [runCopies]
    rw [h.1, h.2]
    unfold cudaMemcpy2DToArrayAsync
    split <;> exact ⟨rfl, rfl⟩

/-- When every copy of the list fits the array, `res` ends as success. -/
theorem runCopies_res (mem : Nat → Nat) (output : Nat) (l : List Copy2D)
    (st : CudaArray × Bool) (hst : st.2 = true)
    (hfit : ∀ k ∈ l, k.fits st.1.width st.1.height = true) :
    (runCopies mem output l st).2 = true := by
  induction l generalizing st with
  | nil => exact hst
  | cons k ks ih =>
    simp only [runCopies]
    have hk : k.fits st.1.width st.1.height = true := hfit k (List.mem_cons_self _ _)
    apply ih
    · simp [cudaMemcpy2DToArrayAsync, hk]
    · intro k' hk'
      have := hfit k' (List.mem_cons_of_mem _ hk')
      simpa [cudaMemcpy2DToArrayAsync, hk] using this

/-- The byte found at `(r, c)` after a list of fitting copies: if every copy
of the list that covers `(r, c)` writes `a` there, and either some copy
covers it or `a` was there before, then `a` is there afterwards. -/
theorem runCopies_data (mem : Nat → Nat) (output : Nat) (r c a : Nat) (l : List Copy2D)
    (st : CudaArray × Bool)
    (hfit : ∀ k ∈ l, k.fits st.1.width st.1.height = true)
    (hval : ∀ k ∈ l, k.covers r c = true → k.value mem output r c = a)
    (hex : st.1.data r c = a ∨ ∃ k ∈ l, k.covers r c = true) :
    (runCopies mem output l st).1.data r c = a := by
  induction l generalizing st with
  | nil =>
    rcases hex with h | ⟨k, hk, -⟩
    · exact h
    · cases hk
  | cons k ks ih =>
    simp only [runCopies]
    have hk : k.fits st.1.width st.1.height = true := hfit k (List.mem_cons_self _ _)
    apply ih
    · intro k' hk'
      have := hfit k' (List.mem_cons_of_mem _ hk')
      simpa [cudaMemcpy2DToArrayAsync, hk] using this
    · intro k' hk'
      exact hval k' (List.mem_cons_of_mem _ hk')
    · by_cases hc : k.covers r c = true
      · left
        simp [cudaMemcpy2DToArrayAsync, hk, hc, hval k (List.mem_cons_self _ _) hc]
      · rcases hex with h | ⟨k', hk', hc'⟩
        · left
          simp [cudaMemcpy2DToArrayAsync, hk, hc, h]
        · rcases List.mem_cons.1 hk' with rfl | hmem
          · exact absurd hc' hc
          · exact Or.inr ⟨k', hmem, hc'⟩

/-- A byte of tile `(x, y)` is covered by the copy of tile `(x', y')` only
when the two tiles are the same. -/
theorem covers_tile_unique {w h x y x' y' u v c : Nat}
    (hu : u < w) (hv : v < h) (hc : c < 4)
    (k : Copy2D) (hk1 : k.wOffset = w * x' * 4) (hk2 : k.hOffset = h * y')
    (hk3 : k.width = w * 4) (hk4 : k.height = h)
    (hcov : k.covers (h * y + v) ((w * x + u) * 4 + c) = true) :
    x' = x ∧ y' = y := by
  simp only [Copy2D.covers, Bool.and_eq_true, decide_eq_true_eq, hk1, hk2, hk3, hk4] at hcov
  obtain ⟨⟨⟨h1, h2⟩, h3⟩, h4⟩ := hcov
  constructor
  · rcases Nat.lt_trichotomy x' x with hlt | heq | hgt
    · have : w * (x' + 1) ≤ w * x := Nat.mul_le_mul_left w hlt
      rw [Nat.mul_succ] at this
      omega
    · exact heq
    · have : w * (x + 1) ≤ w * x' := Nat.mul_le_mul_left w hgt
      rw [Nat.mul_succ] at this
      omega
  · rcases Nat.lt_trichotomy y' y with hlt | heq | hgt
    · have : h * (y' + 1) ≤ h * y := Nat.mul_le_mul_left h hlt
      rw [Nat.mul_succ] at this
      omega
    · exact heq
    · have : h * (y + 1) ≤ h * y' := Nat.mul_le_mul_left h hgt
      rw [Nat.mul_succ] at this
      omega

theorem frameCopies_tiled {cfg : Config} (h : 1 < cfg.tiles_x * cfg.tiles_y) :
    frameCopies cfg = tileCopies cfg.out_dim cfg.tiles_x cfg.tiles_y := by
  simp [frameCopies, num_envs, h]

theorem img_dims_eq {w h tiles_x tiles_y : Nat}
    (hX : w * tiles_x < 2 ^ 32) (hY : h * tiles_y < 2 ^ 32) :
    img_dims (w, h) tiles_x tiles_y = (w * tiles_x, h * tiles_y) := by
  simp [img_dims, u32_of_lt hX, u32_of_lt hY]

/-- Without wrap-around every tile copy fits the texture of `img_dims`. -/
theorem tileCopies_fit {w h tiles_x tiles_y : Nat}
    (hX : w * tiles_x < 2 ^ 32) (hY : h * tiles_y < 2 ^ 32) (hwh : w * h < 2 ^ 32)
    (hw : 1 ≤ w) (hh : 1 ≤ h) (hI : tiles_x * tiles_y < 2 ^ 31)
    (hB : tiles_x * tiles_y * w * h * 4 < 2 ^ 64) :
    ∀ k ∈ tileCopies (w, h) tiles_x tiles_y,
      k.fits (img_dims (w, h) tiles_x tiles_y).1 (img_dims (w, h) tiles_x tiles_y).2 = true := by
  intro k hk
  obtain ⟨x, hx, y, hy, rfl⟩ := mem_tileCopies.1 hk
  rw [tileCopy_eq hx hy hX hY hwh hw hh hI hB, img_dims_eq hX hY]
  have h1 : w * (x + 1) ≤ w * tiles_x := Nat.mul_le_mul_left w hx
  have h2 : h * (y + 1) ≤ h * tiles_y := Nat.mul_le_mul_left h hy
  rw [Nat.mul_succ] at h1 h2
  simp only [Copy2D.fits, Bool.and_eq_true, decide_eq_true_eq]
  omega

/-- The byte the compositor leaves at byte `c` of pixel `(u, v)` of tile
`(x, y)`, and the value of `res`. -/
theorem composite_tile_byte (tiles_x tiles_y w h nb : Nat) (mem : Nat → Nat) (output : Nat)
    (data : Nat → Nat → Nat) (hw : 1 ≤ w) (hh : 1 ≤ h) (henv : 1 < tiles_x * tiles_y)
    (hX : w * tiles_x < 2 ^ 32) (hY : h * tiles_y < 2 ^ 32) (hwh : w * h < 2 ^ 32)
    (hI : tiles_x * tiles_y < 2 ^ 31) (hB : tiles_x * tiles_y * w * h * 4 < 2 ^ 64)
    (x y u v c : Nat) (hx : x < tiles_x) (hy : y < tiles_y) (hu : u < w) (hv : v < h)
    (hc : c < 4) :
    (composite ⟨tiles_x, tiles_y, (w, h), nb⟩ mem output
        (textureArray ⟨tiles_x, tiles_y, (w, h), nb⟩ data)).2 = true ∧
    (composite ⟨tiles_x, tiles_y, (w, h), nb⟩ mem output
        (textureArray ⟨tiles_x, tiles_y, (w, h), nb⟩ data)).1.data (h * y + v)
        ((w * x + u) * 4 + c) =
      mem (output + ((y * tiles_x + x) * w * h + v * w + u) * 4 + c) := by
  have hfc : frameCopies ⟨tiles_x, tiles_y, (w, h), nb⟩ = tileCopies (w, h) tiles_x tiles_y :=
    @frameCopies_tiled ⟨tiles_x, tiles_y, (w, h), nb⟩ henv
  have hfit := tileCopies_fit hX hY hwh hw hh hI hB
  unfold composite
  rw [hfc]
  refine ⟨runCopies_res _ _ _ _ rfl hfit, ?_⟩
  apply runCopies_data _ _ _ _ _ _ _ hfit
  · intro k hk hcov
    obtain ⟨x', hx', y', hy', rfl⟩ := mem_tileCopies.1 hk
    rw [tileCopy_eq hx' hy' hX hY hwh hw hh hI hB] at hcov ⊢
    obtain ⟨rfl, rfl⟩ := covers_tile_unique hu hv hc _ rfl rfl rfl rfl hcov
    simp only [Copy2D.value]
    congr 1
    have e1' : h * y' + v - h * y' = v := by omega
    have e2 : (w * x' + u) * 4 + c - w * x' * 4 = u * 4 + c := by omega
    rw [e1', e2]
    ring
  · right
    refine ⟨tileCopy (w, h) tiles_x x y, mem_tileCopies.2 ⟨x, hx, y, hy, rfl⟩, ?_⟩
    rw [tileCopy_eq hx hy hX hY hwh hw hh hI hB]
    simp only [Copy2D.covers, Bool.and_eq_true, decide_eq_true_eq]
    omega

/-- C1 (tile compositor round trip): for a grid with more than one
environment, tiles of at least 1 x 1 pixels and no overflow in the 32-bit
arithmetic of the loop (the products `out_dim.x * x`, `out_dim.y * y`,
`out_dim.y * out_dim.x` and the `int` value `batch_idx`) nor in the 64-bit
source offset, every copy of the loop succeeds and the destination pixel `(w*x + u, h*y + v)` equals the
source pixel at byte offset `((y*tiles_x + x)*w*h + v*w + u)*4`; so when the
block of environment `i` is filled with the constant `cst i`, the pixels of
tile `(x, y)` all equal `cst (y*tiles_x + x)`. -/
theorem tile_compositor_round_trip (tiles_x tiles_y w h nb : Nat) (mem : Nat → Nat)
    (output : Nat) (data : Nat → Nat → Nat)
    (hw : 1 ≤ w) (hh : 1 ≤ h) (henv : 1 < tiles_x * tiles_y)
    (hX : w * tiles_x < 2 ^ 32) (hY : h * tiles_y < 2 ^ 32) (hwh : w * h < 2 ^ 32)
    (hI : tiles_x * tiles_y < 2 ^ 31) (hB : tiles_x * tiles_y * w * h * 4 < 2 ^ 64)
    (x y u v : Nat) (hx : x < tiles_x) (hy : y < tiles_y) (hu : u < w) (hv : v < h) :
    (composite ⟨tiles_x, tiles_y, (w, h), nb⟩ mem output
        (textureArray ⟨tiles_x, tiles_y, (w, h), nb⟩ data)).2 = true ∧
    (composite ⟨tiles_x, tiles_y, (w, h), nb⟩ mem output
        (textureArray ⟨tiles_x, tiles_y, (w, h), nb⟩ data)).1.pixel (w * x + u) (h * y + v) =
      srcPixel mem (output + ((y * tiles_x + x) * w * h + v * w + u) * 4) ∧
    ∀ cst : Nat → List Nat,
      (∀ i j, i < tiles_x * tiles_y → j < w * h →
        srcPixel mem (output + (i * w * h + j) * 4) = cst i) →
      (composite ⟨tiles_x, tiles_y, (w, h), nb⟩ mem output
        (textureArray ⟨tiles_x, tiles_y, (w, h), nb⟩ data)).1.pixel (w * x + u) (h * y + v) =
        cst (y * tiles_x + x) := by
  have key : (composite ⟨tiles_x, tiles_y, (w, h), nb⟩ mem output
        (textureArray ⟨tiles_x, tiles_y, (w, h), nb⟩ data)).1.pixel (w * x + u) (h * y + v) =
      srcPixel mem (output + ((y * tiles_x + x) * w * h + v * w + u) * 4) := by
    unfold CudaArray.pixel srcPixel
    apply List.map_congr_left
    intro c hc
    have hc4 : c < 4 := List.mem_range.1 hc
    rw [(composite_tile_byte tiles_x tiles_y w h nb mem output data hw hh henv hX hY hwh hI hB
      x y u v c hx hy hu hv hc4).2]
  refine ⟨(composite_tile_byte tiles_x tiles_y w h nb mem output data hw hh henv hX hY hwh hI hB
      x y u v 0 hx hy hu hv (by decide)).1, key, ?_⟩
  intro cst hcst
  rw [key]
  have hb : y * tiles_x + x < tiles_x * tiles_y := by
    calc y * tiles_x + x < y * tiles_x + tiles_x := by omega
      _ = tiles_x * (y + 1) := by ring
      _ ≤ tiles_x * tiles_y := Nat.mul_le_mul_left _ hy
  have hj : v * w + u < w * h := by
    calc v * w + u < v * w + w := by omega
      _ = w * (v + 1) := by ring
      _ ≤ w * h := Nat.mul_le_mul_left _ hv
  have := hcst (y * tiles_x + x) (v * w + u) hb hj
  rw [← this]
  congr 2
  ring

/-- C1 at a 2 x 2 grid of 2 x 2 tiles whose source bytes are their own
addresses modulo 256: pixel `(1, 0)` of tile `(1, 1)`. -/
theorem tile_compositor_round_trip_witness :
    (composite ⟨2, 2, (2, 2), 1⟩ (fun a => a % 256) 1000
        (textureArray ⟨2, 2, (2, 2), 1⟩ (fun _ _ => 0))).1.pixel (2 * 1 + 1) (2 * 1 + 0) =
      srcPixel (fun a => a % 256) (1000 + ((1 * 2 + 1) * 2 * 2 + 0 * 2 + 1) * 4) :=
  (tile_compositor_round_trip 2 2 2 2 1 (fun a => a % 256) 1000 (fun _ _ => 0)
    (by decide) (by decide) (by decide) (by decide) (by decide) (by decide) (by decide)
    (by decide) 1 1 1 0 (by decide) (by decide) (by decide) (by decide)).2.1

/-! ### Exact tiling -/

/-- The destination rectangle of tile `(x, y)` when the image dimensions do
not wrap: byte column `w*x*4`, row `h*y`, `w*4` bytes by `h` rows. -/
theorem tileCopy_rect {w h tiles_x tiles_y x y : Nat} (hx : x < tiles_x) (hy : y < tiles_y)
    (hX : w * tiles_x < 2 ^ 32) (hY : h * tiles_y < 2 ^ 32) :
    (tileCopy (w, h) tiles_x x y).wOffset = w * x * 4 ∧
    (tileCopy (w, h) tiles_x x y).hOffset = h * y ∧
    (tileCopy (w, h) tiles_x x y).width = w * 4 ∧
    (tileCopy (w, h) tiles_x x y).height = h := by
  have hwx : w * x ≤ w * tiles_x := Nat.mul_le_mul_left w hx.le
  have hhy : h * y ≤ h * tiles_y := Nat.mul_le_mul_left h hy.le
  have a1 : u32 (w * u32 x) = w * x := by
    rcases Nat.eq_zero_or_pos w with rfl | hw
    · simp [u32]
    · have : tiles_x ≤ w * tiles_x := Nat.le_mul_of_pos_left tiles_x hw
      rw [u32_of_lt (show x < 2 ^ 32 by omega), u32_of_lt (by omega)]
  have a2 : u32 (h * u32 y) = h * y := by
    rcases Nat.eq_zero_or_pos h with rfl | hh
    · simp [u32]
    · have : tiles_y ≤ h * tiles_y := Nat.le_mul_of_pos_left tiles_y hh
      rw [u32_of_lt (show y < 2 ^ 32 by omega), u32_of_lt (by omega)]
  have a3 : w < 2 ^ 32 := by
    have : w * 1 ≤ w * tiles_x := Nat.mul_le_mul_left w (by omega)
    omega
  have a4 : usize (usize (w * 1) * 4) = w * 4 := by
    rw [Nat.mul_one, usize_of_lt (show w < 2 ^ 64 by omega), usize_of_lt (by omega)]
  refine ⟨?_, ?_, ?_, rfl⟩
  · show usize (usize (u32 (w * u32 x) * 1) * 4) = w * x * 4
    rw [a1, Nat.mul_one, usize_of_lt (show w * x < 2 ^ 64 by omega), usize_of_lt (by omega)]
  · exact a2
  · exact a4

/-- Two rectangles of the grid that share a byte belong to the same tile. -/
theorem rect_unique {w h x y x' y' r c : Nat} (k k' : Copy2D)
    (hk : k.wOffset = w * x * 4 ∧ k.hOffset = h * y ∧ k.width = w * 4 ∧ k.height = h)
    (hk' : k'.wOffset = w * x' * 4 ∧ k'.hOffset = h * y' ∧ k'.width = w * 4 ∧ k'.height = h)
    (hc : k.covers r c = true) (hc' : k'.covers r c = true) : x' = x ∧ y' = y := by
  simp only [Copy2D.covers, Bool.and_eq_true, decide_eq_true_eq, hk.1, hk.2.1, hk.2.2.1,
    hk.2.2.2, hk'.1, hk'.2.1, hk'.2.2.1, hk'.2.2.2] at hc hc'
  obtain ⟨⟨⟨h1, h2⟩, h3⟩, h4⟩ := hc
  obtain ⟨⟨⟨g1, g2⟩, g3⟩, g4⟩ := hc'
  constructor
  · rcases Nat.lt_trichotomy x' x with hlt | heq | hgt
    · have : w * (x' + 1) ≤ w * x := Nat.mul_le_mul_left w hlt
      rw [Nat.mul_succ] at this
      omega
    · exact heq
    · have : w * (x + 1) ≤ w * x' := Nat.mul_le_mul_left w hgt
      rw [Nat.mul_succ] at this
      omega
  · rcases Nat.lt_trichotomy y' y with hlt | heq | hgt
    · have : h * (y' + 1) ≤ h * y := Nat.mul_le_mul_left h hlt
      rw [Nat.mul_succ] at this
      omega
    · exact heq
    · have : h * (y + 1) ≤ h * y' := Nat.mul_le_mul_left h hgt
      rw [Nat.mul_succ] at this
      omega

/-- The list of tile copies is the image of the list of pairs of loop
counters, `x` major. -/
theorem tileCopies_eq_map (out_dim : Nat × Nat) (tiles_x tiles_y : Nat) :
    tileCopies out_dim tiles_x tiles_y =
      (List.product (List.range tiles_x) (List.range tiles_y)).map
        fun p => tileCopy out_dim tiles_x p.1 p.2 := by
  simp [tileCopies, List.product, List.map_flatMap, List.map_map, Function.comp_def]

/-- Every byte of the image lies in the rectangle of some tile. -/
theorem tile_of_byte {w h tiles_x tiles_y r c : Nat}
    (hr : r < h * tiles_y) (hc : c < w * tiles_x * 4) :
    ∃ x y, x < tiles_x ∧ y < tiles_y ∧ (w * x * 4 ≤ c ∧ c < w * x * 4 + w * 4) ∧
      (h * y ≤ r ∧ r < h * y + h) := by
  have hw : 0 < w * 4 := by
    rcases Nat.eq_zero_or_pos w with rfl | hw
    · simp at hc
    · omega
  have hh : 0 < h := by
    rcases Nat.eq_zero_or_pos h with rfl | hh
    · simp at hr
    · exact hh
  refine ⟨c / (w * 4), r / h, ?_, ?_, ⟨?_, ?_⟩, ?_, ?_⟩
  · rw [Nat.div_lt_iff_lt_mul hw]
    calc c < w * tiles_x * 4 := hc
      _ = tiles_x * (w * 4) := by ring
  · rw [Nat.div_lt_iff_lt_mul hh]
    calc r < h * tiles_y := hr
      _ = tiles_y * h := by ring
  · have := Nat.div_mul_le_self c (w * 4)
    calc w * (c / (w * 4)) * 4 = c / (w * 4) * (w * 4) := by ring
      _ ≤ c := this
  · have h1 := Nat.div_add_mod c (w * 4)
    have h2 := Nat.mod_lt c hw
    have e : w * (c / (w * 4)) * 4 = w * 4 * (c / (w * 4)) := by ring
    rw [e]
    omega
  · have := Nat.div_mul_le_self r h
    calc h * (r / h) = r / h * h := by ring
      _ ≤ r := this
  · have h1 := Nat.div_add_mod r h
    have h2 := Nat.mod_lt r hh
    omega

/-- In a list without duplicates a predicate that singles out one member
holds of exactly one entry. -/
theorem countP_eq_one_of_unique {α : Type} (p : α → Bool) (a : α) :
    ∀ l : List α, l.Nodup → a ∈ l → (∀ b ∈ l, p b = true ↔ b = a) → l.countP p = 1
  | [], _, hmem, _ => by cases hmem
  | b :: t, hnd, hmem, hp => by
    rw [List.nodup_cons] at hnd
    by_cases hab : b = a
    · have hpb : p b = true := (hp b (List.mem_cons_self _ _)).2 hab
      have hz : t.countP p = 0 := by
        rw [List.countP_eq_zero]
        intro c hc hpc
        have : c = a := (hp c (List.mem_cons_of_mem _ hc)).1 hpc
        exact hnd.1 (hab ▸ this ▸ hc)
      rw [List.countP_cons_of_pos _ _ hpb, hz]
    · have hpb : ¬ p b = true := fun hpb => hab ((hp b (List.mem_cons_self _ _)).1 hpb)
      have hat : a ∈ t := by
        rcases List.mem_cons.1 hmem with h | h
        · exact absurd h.symm hab
        · exact h
      rw [List.countP_cons_of_neg _ _ hpb]
      exact countP_eq_one_of_unique p a t hnd.2 hat
        (fun c hc => hp c (List.mem_cons_of_mem _ hc))

theorem no_wrap_of_img_dims {w h tiles_x tiles_y : Nat}
    (hdim : img_dims (w, h) tiles_x tiles_y = (tiles_x * w, tiles_y * h)) :
    w * tiles_x < 2 ^ 32 ∧ h * tiles_y < 2 ^ 32 := by
  simp only [img_dims, u32, Prod.mk.injEq] at hdim
  have h1 : w * tiles_x % 2 ^ 32 < 2 ^ 32 := Nat.mod_lt _ (by norm_num)
  have h2 : h * tiles_y % 2 ^ 32 < 2 ^ 32 := Nat.mod_lt _ (by norm_num)
  rw [hdim.1] at h1
  rw [hdim.2] at h2
  constructor
  · rw [Nat.mul_comm]; exact h1
  · rw [Nat.mul_comm]; exact h2

/-- C2 (exact tiling): when the image dimensions are `(tiles_x*w, tiles_y*h)`
(the products of line 129 do not wrap), the rectangle of tile `(x, y)` has
byte column `w*x*4`, row `h*y` and extent `w*4` bytes by `h` rows; every
rectangle lies inside the image; rectangles of different copies share no
byte; and every byte of the image lies in the rectangle of exactly one copy
of the loop. -/
theorem tiles_exactly_tile_image (tiles_x tiles_y w h : Nat)
    (hdim : img_dims (w, h) tiles_x tiles_y = (tiles_x * w, tiles_y * h)) :
    (∀ x y, x < tiles_x → y < tiles_y →
      (tileCopy (w, h) tiles_x x y).wOffset = w * x * 4 ∧
      (tileCopy (w, h) tiles_x x y).hOffset = h * y ∧
      (tileCopy (w, h) tiles_x x y).width = w * 4 ∧
      (tileCopy (w, h) tiles_x x y).height = h) ∧
    (∀ k ∈ tileCopies (w, h) tiles_x tiles_y,
      k.wOffset + k.width ≤ (img_dims (w, h) tiles_x tiles_y).1 * 4 ∧
      k.hOffset + k.height ≤ (img_dims (w, h) tiles_x tiles_y).2) ∧
    (tileCopies (w, h) tiles_x tiles_y).Pairwise
      (fun k k' => ∀ r c, ¬ (k.covers r c = true ∧ k'.covers r c = true)) ∧
    ∀ r c, r < (img_dims (w, h) tiles_x tiles_y).2 →
      c < (img_dims (w, h) tiles_x tiles_y).1 * 4 →
      (tileCopies (w, h) tiles_x tiles_y).countP (fun k => k.covers r c) = 1 := by
  obtain ⟨hX, hY⟩ := no_wrap_of_img_dims hdim
  have hnd : (List.product (List.range tiles_x) (List.range tiles_y)).Nodup :=
    List.Nodup.product (List.nodup_range _) (List.nodup_range _)
  refine ⟨fun x y hx hy => tileCopy_rect hx hy hX hY, ?_, ?_, ?_⟩
  · intro k hk
    obtain ⟨x, hx, y, hy, rfl⟩ := mem_tileCopies.1 hk
    obtain ⟨e1, e2, e3, e4⟩ := tileCopy_rect hx hy hX hY
    rw [e1, e2, e3, e4, img_dims_eq hX hY]
    have h1 : w * (x + 1) ≤ w * tiles_x := Nat.mul_le_mul_left w hx
    have h2 : h * (y + 1) ≤ h * tiles_y := Nat.mul_le_mul_left h hy
    rw [Nat.mul_succ] at h1 h2
    constructor <;> omega
  · rw [tileCopies_eq_map, List.pairwise_map]
    refine List.Pairwise.imp_of_mem ?_ hnd
    rintro ⟨p1, p2⟩ ⟨q1, q2⟩ hp hq hne r c hcov
    apply hne
    rw [List.pair_mem_product, List.mem_range, List.mem_range] at hp hq
    obtain ⟨e1, e2⟩ := rect_unique _ _ (tileCopy_rect hq.1 hq.2 hX hY)
      (tileCopy_rect hp.1 hp.2 hX hY) hcov.2 hcov.1
    exact Prod.ext e1 e2
  · intro r c hr hc
    rw [img_dims_eq hX hY] at hr hc
    obtain ⟨x, y, hx, hy, hcx, hcy⟩ := tile_of_byte hr hc
    have hmem : (x, y) ∈ List.product (List.range tiles_x) (List.range tiles_y) := by
      rw [List.pair_mem_product, List.mem_range, List.mem_range]
      exact ⟨hx, hy⟩
    obtain ⟨e1, e2, e3, e4⟩ := tileCopy_rect hx hy hX hY
    have hcov : (tileCopy (w, h) tiles_x x y).covers r c = true := by
      simp only [Copy2D.covers, Bool.and_eq_true, decide_eq_true_eq, e1, e2, e3, e4]
      omega
    rw [tileCopies_eq_map, List.countP_map]
    apply countP_eq_one_of_unique _ (x, y) _ hnd hmem
    rintro ⟨p1, p2⟩ hp
    rw [List.pair_mem_product, List.mem_range, List.mem_range] at hp
    simp only [Function.comp_apply]
    constructor
    · intro hcp
      obtain ⟨e1, e2⟩ := rect_unique _ _ (tileCopy_rect hx hy hX hY)
        (tileCopy_rect hp.1 hp.2 hX hY) hcov hcp
      exact Prod.ext e1 e2
    · intro hpq
      obtain ⟨rfl, rfl⟩ := Prod.mk.inj hpq
      exact hcov

/-- C2 at the layout of the source: 3 x 4 tiles of 256 x 256 pixels; byte
1500 of row 300 is written by exactly one copy. -/
theorem tiles_exactly_tile_image_witness :
    (tileCopies (256, 256) 3 4).countP (fun k => k.covers 300 1500) = 1 :=
  (tiles_exactly_tile_image 3 4 256 256 (by decide)).2.2.2 300 1500 (by decide) (by decide)

/-! ### The 3 x 4 scenario -/

/-- C3, as stated, fails: the origins of the copies in the order of issue
are not the row-major list, and the second copy issued (k = 1) goes to
origin `(0, 256)` and reads environment 3, not environment 1. -/
theorem copy_order_not_row_major :
    (frameCopies flyConfig).map Copy2D.origin ≠ specOriginsRowMajor flyConfig ∧
    ((frameCopies flyConfig).map Copy2D.origin)[1]? = some (0, 256) ∧
    ((frameCopies flyConfig).map (Copy2D.env flyConfig.out_dim))[1]? = some 3 := by
  decide

/-- C3, amended: with the 3 x 4 grid of 256 x 256 tiles one iteration issues
exactly 12 copies, each of 256 rows of 1024 bytes with a source pitch of
1024 bytes; the k-th copy issued is the copy of tile `(k / 4, k % 4)`, so
the origins come in column-major order and the environments in the order
0, 3, 6, 9, 1, 4, 7, 10, 2, 5, 8, 11. -/
theorem copy_sequence_3x4 :
    (run flyConfig okWorld 1).1.filterMap Event.copyArgs = frameCopies flyConfig ∧
    (frameCopies flyConfig).length = 12 ∧
    (∀ k ∈ frameCopies flyConfig, k.height = 256 ∧ k.width = 256 * 4 ∧ k.spitch = 256 * 4) ∧
    (∀ k, k < 12 →
      (frameCopies flyConfig)[k]? = some (tileCopy (256, 256) 3 (k / 4) (k % 4))) ∧
    (frameCopies flyConfig).map Copy2D.origin =
      [(0, 0), (0, 256), (0, 512), (0, 768), (256, 0), (256, 256), (256, 512), (256, 768),
       (512, 0), (512, 256), (512, 512), (512, 768)] ∧
    (frameCopies flyConfig).map (Copy2D.env flyConfig.out_dim) =
      [0, 3, 6, 9, 1, 4, 7, 10, 2, 5, 8, 11] := by
  decide

/-! ### No tiling -/

/-- C4 (no-tiling equivalence): for a 1 x 1 grid and every tile size (of
32-bit components), the single copy of the `else` branch has destination
origin `(0, 0)`, source offset 0, pitch and row width `img_dims.x * 4` bytes
and `img_dims.y` rows, it is the one copy the tiled loop issues for
`tiles_x = tiles_y = 1`, and so the frame produced by the program (which
takes the `else` branch) is the one the tiled loop produces, for every
source memory and every destination array. -/
theorem no_tiling_equivalence (w h nb : Nat) (hw : w < 2 ^ 32) (hh : h < 2 ^ 32) :
    fullCopy (img_dims (w, h) 1 1) =
      { wOffset := 0, hOffset := 0, srcOff := 0,
        spitch := (img_dims (w, h) 1 1).1 * 4, width := (img_dims (w, h) 1 1).1 * 4,
        height := (img_dims (w, h) 1 1).2 } ∧
    tileCopies (w, h) 1 1 = [fullCopy (img_dims (w, h) 1 1)] ∧
    frameCopies ⟨1, 1, (w, h), nb⟩ = [fullCopy (img_dims (w, h) 1 1)] ∧
    ∀ (mem : Nat → Nat) (output : Nat) (dst : CudaArray),
      composite ⟨1, 1, (w, h), nb⟩ mem output dst =
        runCopies mem output (tileCopies (w, h) 1 1) (dst, true) := by
  have e1 : usize w = w := usize_of_lt (by omega)
  have e2 : usize (w * 4) = w * 4 := usize_of_lt (by omega)
  have e3 : u32 w = w := u32_of_lt hw
  have e4 : u32 h = h := u32_of_lt hh
  have hfull : fullCopy (img_dims (w, h) 1 1) =
      { wOffset := 0, hOffset := 0, srcOff := 0,
        spitch := w * 4, width := w * 4, height := h } := by
    simp only [fullCopy, img_dims, Nat.mul_one, e1, e2, e3, e4]
  have htile : tileCopies (w, h) 1 1 = [fullCopy (img_dims (w, h) 1 1)] := by
    rw [hfull]
    have r1 : List.range 1 = [0] := rfl
    simp only [tileCopies, r1, List.flatMap_cons, List.flatMap_nil, List.map_cons, List.map_nil,
      List.append_nil, tileCopy, batch_idx, Nat.mul_one, e1, e2]
    simp [u32, usize]
  have hframe : frameCopies ⟨1, 1, (w, h), nb⟩ = [fullCopy (img_dims (w, h) 1 1)] := by
    simp [frameCopies, num_envs]
  refine ⟨?_, htile, hframe, ?_⟩
  · rw [hfull]
    simp only [img_dims, Nat.mul_one, e3, e4]
  · intro mem output dst
    unfold composite
    rw [hframe, htile]

/-- C4 at 640 x 480. -/
theorem no_tiling_equivalence_witness :
    tileCopies (640, 480) 1 1 = [fullCopy (img_dims (640, 480) 1 1)] :=
  (no_tiling_equivalence 640 480 1 (by decide) (by decide)).2.1

/-! ## Theorems: the frame loop -/

theorem mapDiscipline_append (a b : List Event) (m : List Nat) :
    mapDiscipline (a ++ b) m = (mapDiscipline a m).bind (mapDiscipline b) := by
  induction a generalizing m with
  | nil => rfl
  | cons e es ih =>
    simp only [List.cons_append, mapDiscipline]
    cases mapStep m e with
    | none => rfl
    | some m' => exact ih m'

/-- Copies on the stream of a mapped slot respect the discipline and leave
the slot mapped. -/
theorem mapDiscipline_issueCopies (ok : Nat → Bool) (s : Nat) (l : List Copy2D) (j : Nat)
    (res : Bool) : mapDiscipline (issueCopies ok s l j res).1 [s] = some [s] := by
  induction l generalizing j res with
  | nil => rfl
  | cons k ks ih =>
    simp only [issueCopies, mapDiscipline, mapStep, List.mem_singleton, if_true]
    exact ih (j + 1) (ok j)

/-- An iteration that runs to its end maps its slot once, copies while the
slot is mapped, unmaps it and only then blits and swaps. -/
theorem mapDiscipline_copyPhase (cfg : Config) (ok : Nat → Bool) (s : Nat) :
    mapDiscipline (copyPhase cfg ok s) [s] = some [s] := by
  unfold copyPhase
  rw [mapDiscipline_append, mapDiscipline_issueCopies]
  split <;> rfl

theorem iteration_mapDiscipline (cfg : Config) (W : World) (i prev_frame : Nat)
    (t : List Event) (new_frame : Nat)
    (h : iteration cfg W i prev_frame = (t, some new_frame)) :
    mapDiscipline t [] = some [] := by
  simp only [iteration] at h
  split_ifs at h <;> simp only [Prod.mk.injEq, reduceCtorEq, and_false] at h
  obtain ⟨rfl, -⟩ := h
  simp [mapDiscipline_append, mapDiscipline, mapStep, mapDiscipline_copyPhase]

theorem mainLoop_mapDiscipline (cfg : Config) (W : World) (n i prev_frame : Nat)
    (h : (mainLoop cfg W n i prev_frame).2 = false) :
    mapDiscipline (mainLoop cfg W n i prev_frame).1 [] = some [] := by
  induction n generalizing i prev_frame with
  | zero => rfl
  | succ n ih =>
    unfold mainLoop at h ⊢
    rcases hit : iteration cfg W i prev_frame with ⟨t, _ | new_frame⟩
    · rw [hit] at h
      simp at h
    · rw [hit] at h
      simp only at h ⊢
      rw [mapDiscipline_append, iteration_mapDiscipline cfg W i prev_frame t new_frame hit]
      exact ih (i + 1) new_frame h

/-- C7 (map/unmap discipline): in every run of the loop that no `assert` or
`abort()` stops, whatever the number of iterations, the handles returned by
the renderer and the results of the copies, each slot is mapped only while
unmapped and unmapped only while mapped, every copy is issued while its
slot is mapped, every blit while its slot is unmapped and every buffer swap
while no slot is mapped; at the end of the run (hence of every iteration)
no slot is left mapped. -/
theorem map_unmap_discipline (cfg : Config) (W : World) (n : Nat)
    (h : (run cfg W n).2 = false) :
    mapDiscipline (run cfg W n).1 [] = some [] := by
  simp only [run] at h ⊢
  simp only [mapDiscipline, mapStep]
  exact mainLoop_mapDiscipline cfg W n 0 (W.render 0) h

/-- C7 at three iterations of the program as configured in the source. -/
theorem map_unmap_discipline_witness :
    mapDiscipline (run flyConfig okWorld 3).1 [] = some [] :=
  map_unmap_discipline flyConfig okWorld 3 (by decide)

/-! ### Single buffer -/

theorem issueCopies_isOther (ok : Nat → Bool) (s : Nat) (l : List Copy2D) (j : Nat)
    (res : Bool) : ∀ e ∈ (issueCopies ok s l j res).1, e.isOther = true := by
  induction l generalizing j res with
  | nil => intro e he; cases he
  | cons k ks ih =>
    intro e he
    simp only [issueCopies, List.mem_cons] at he
    rcases he with rfl | he
    · rfl
    · exact ih (j + 1) (ok j) e he

theorem dispatchWaitOk_other_append (l rest : List Event)
    (h : ∀ e ∈ l, e.isOther = true) :
    dispatchWaitOk (l ++ rest) = dispatchWaitOk rest := by
  induction l with
  | nil => rfl
  | cons e es ih =>
    have he := h e (List.mem_cons_self _ _)
    have hes := ih (fun e' he' => h e' (List.mem_cons_of_mem _ he'))
    cases e <;> simp [Event.isOther] at he <;> simp [dispatchWaitOk, hes]

theorem dispatchWaitOk_copyPhase (cfg : Config) (ok : Nat → Bool) (s : Nat)
    (rest : List Event) :
    dispatchWaitOk (copyPhase cfg ok s ++ rest) = dispatchWaitOk rest := by
  apply dispatchWaitOk_other_append
  intro e he
  unfold copyPhase at he
  rcases List.mem_append.1 he with he | he
  · exact issueCopies_isOther _ _ _ _ _ e he
  · split at he
    · cases he
    · rw [List.mem_singleton] at he
      rw [he]; rfl

/-- With one buffer and a renderer that returns frame 0, an iteration that
starts with `prev_frame = 0` passes both assertions, waits for the handle
its dispatch returned, and hands `prev_frame = 0` on. -/
theorem iteration_single_buffer (cfg : Config) (W : World) (i : Nat)
    (hnb : cfg.num_buffers = 1) (hr : W.render (i + 1) = 0) :
    (∀ rest, dispatchWaitOk ((iteration cfg W i 0).1 ++ rest) = dispatchWaitOk rest) ∧
    ((iteration cfg W i 0).2 = none ∨ (iteration cfg W i 0).2 = some 0) := by
  simp only [iteration, hnb, hr]
  split_ifs <;>
    simp_all [dispatchWaitOk, dispatchWaitOk_copyPhase]

theorem iteration_head (cfg : Config) (W : World) (i prev_frame : Nat) :
    ∃ rest, (iteration cfg W i prev_frame).1 = Event.render (W.render (i + 1)) :: rest := by
  simp only [iteration]
  split_ifs <;> simp

theorem mainLoop_head (cfg : Config) (W : World) (n i prev_frame : Nat) :
    (mainLoop cfg W n i prev_frame).1 = [] ∨
      ∃ r rest, (mainLoop cfg W n i prev_frame).1 = Event.render r :: rest := by
  cases n with
  | zero => exact Or.inl rfl
  | succ n =>
    right
    obtain ⟨rest, hrest⟩ := iteration_head cfg W i prev_frame
    unfold mainLoop
    rcases hit : iteration cfg W i prev_frame with ⟨t, _ | new_frame⟩
    · rw [hit] at hrest
      exact ⟨_, rest, hrest⟩
    · rw [hit] at hrest
      simp only at hrest ⊢
      exact ⟨_, rest ++ (mainLoop cfg W n (i + 1) new_frame).1, by rw [hrest]; rfl⟩

theorem mainLoop_single_buffer (cfg : Config) (W : World) (n i : Nat)
    (hnb : cfg.num_buffers = 1) (hr : ∀ k, W.render k = 0) :
    dispatchWaitOk (mainLoop cfg W n i 0).1 = true := by
  induction n generalizing i with
  | zero => rfl
  | succ n ih =>
    have hit := iteration_single_buffer cfg W i hnb (hr _)
    unfold mainLoop
    rcases hsplit : iteration cfg W i 0 with ⟨t, _ | new_frame⟩
    · rw [hsplit] at hit
      have := hit.1 []
      simpa [dispatchWaitOk] using this
    · rw [hsplit] at hit
      have h0 : new_frame = 0 := by simpa using hit.2
      subst h0
      simp only
      rw [hit.1]
      exact ih (i + 1)

/-- A trace that passes the single-buffer check holds no failed assertion. -/
theorem dispatchWaitOk_no_assert (t : List Event) (h : dispatchWaitOk t = true) (line : Nat) :
    Event.assertFailed line ∉ t := by
  induction t using dispatchWaitOk.induct with
  | case1 => simp
  | case2 r f rest ih =>
    simp only [dispatchWaitOk, Bool.and_eq_true] at h
    simp [ih h.2]
  | case3 => simp [dispatchWaitOk] at h
  | case4 => simp [dispatchWaitOk] at h
  | case5 e rest h1 h2 h3 ih =>
    rw [dispatchWaitOk] at h
    · simp only [List.mem_cons, not_or]
      exact ⟨fun heq => h3 line heq.symm, ih h⟩
    all_goals assumption

/-- With one buffer, a renderer that returns frame 0 and no failing CUDA
call, the loop runs all its iterations. -/
theorem mainLoop_completes (cfg : Config) (W : World) (n i : Nat)
    (hnb : cfg.num_buffers = 1) (hr : ∀ k, W.render k = 0)
    (hok : ∀ j, W.mapOk j = true ∧ W.getArrayOk j = true ∧ W.unmapOk j = true) :
    (mainLoop cfg W n i 0).2 = false := by
  induction n generalizing i with
  | zero => rfl
  | succ n ih =>
    have hit : (iteration cfg W i 0).2 = some 0 := by
      simp [iteration, hnb, hr, hok]
    unfold mainLoop
    rcases hsplit : iteration cfg W i 0 with ⟨t, _ | new_frame⟩
    · rw [hsplit] at hit
      cases hit
    · rw [hsplit] at hit
      have h0 : new_frame = 0 := by simpa using hit
      subst h0
      exact ih (i + 1)

/-- C5 (single-buffer invariant): with `num_buffers = 1` and a renderer
whose render call returns frame indices below the buffer count, in every
run, whatever the number of iterations, every `waitForFrame` directly
follows a dispatch that returned the very handle waited for, which is 0,
and neither assertion fails, the first iteration included; when moreover no
CUDA call fails, the run goes through all its iterations. -/
theorem single_buffer_invariant (cfg : Config) (W : World) (n : Nat)
    (hnb : cfg.num_buffers = 1) (hr : ∀ k, W.render k < cfg.num_buffers) :
    dispatchWaitOk (run cfg W n).1 = true ∧
    (∀ line, Event.assertFailed line ∉ (run cfg W n).1) ∧
    ((∀ j, W.mapOk j = true ∧ W.getArrayOk j = true ∧ W.unmapOk j = true) →
      (run cfg W n).2 = false) := by
  have hr0 : ∀ k, W.render k = 0 := fun k => by
    have := hr k
    omega
  have hmain := mainLoop_single_buffer cfg W n 0 hnb hr0
  have hrun : dispatchWaitOk (run cfg W n).1 = true := by
    simp only [run, hr0]
    rcases mainLoop_head cfg W n 0 0 with hnil | ⟨r, rest, hcons⟩
    · rw [hnil]; rfl
    · rw [hcons] at hmain ⊢
      simpa [dispatchWaitOk] using hmain
  refine ⟨hrun, dispatchWaitOk_no_assert _ hrun, fun hok => ?_⟩
  simp only [run, hr0]
  exact mainLoop_completes cfg W n 0 hnb hr0 hok

/-- C5 at five iterations of the program as configured in the source. -/
theorem single_buffer_invariant_witness :
    dispatchWaitOk (run flyConfig okWorld 5).1 = true :=
  (single_buffer_invariant flyConfig okWorld 5 rfl (fun _ => Nat.zero_lt_one)).1

/-! ### Serialization -/

theorem tileCopies_length (out_dim : Nat × Nat) (tiles_x tiles_y : Nat) :
    (tileCopies out_dim tiles_x tiles_y).length = tiles_x * tiles_y := by
  rw [tileCopies_eq_map, List.length_map]
  have := List.length_product (List.range tiles_x) (List.range tiles_y)
  rw [List.length_range, List.length_range] at this
  exact this

/-- Every frame has at least one copy. -/
theorem frameCopies_length_pos (cfg : Config) : 0 < (frameCopies cfg).length := by
  unfold frameCopies
  split
  · rename_i h
    rw [tileCopies_length]
    unfold num_envs at h
    omega
  · simp

theorem calls_append (a b : List Event) : calls (a ++ b) = calls a ++ calls b := by
  simp [calls, List.filterMap_append]

theorem calls_issueCopies (ok : Nat → Bool) (s : Nat) (l : List Copy2D) (j : Nat) (res : Bool) :
    calls (issueCopies ok s l j res).1 = List.replicate l.length Call.copy := by
  induction l generalizing j res with
  | nil => rfl
  | cons k ks ih =>
    simp only [issueCopies, calls, List.filterMap_cons, Event.call, List.length_cons,
      List.replicate_succ]
    exact congrArg _ (ih (j + 1) (ok j))

theorem calls_copyPhase (cfg : Config) (ok : Nat → Bool) (s : Nat) :
    calls (copyPhase cfg ok s) = List.replicate (frameCopies cfg).length Call.copy := by
  unfold copyPhase
  rw [calls_append, calls_issueCopies]
  split <;> simp [calls, Event.call]

theorem serialRun_append (a b : List Call) (p : Phase) :
    serialRun (a ++ b) p = (serialRun a p).bind (serialRun b) := by
  induction a generalizing p with
  | nil => rfl
  | cons c cs ih =>
    simp only [List.cons_append, serialRun]
    cases serialStep p c with
    | none => rfl
    | some q => exact ih q

theorem serialRun_copies_copying (m : Nat) :
    serialRun (List.replicate m Call.copy) Phase.copying = some Phase.copying := by
  induction m with
  | zero => rfl
  | succ m ih => simpa [List.replicate_succ, serialRun, serialStep] using ih

theorem serialRun_copies_waited (m : Nat) (hm : 0 < m) :
    serialRun (List.replicate m Call.copy) Phase.waited = some Phase.copying := by
  obtain ⟨k, rfl⟩ : ∃ k, m = k + 1 := ⟨m - 1, by omega⟩
  simpa [List.replicate_succ, serialRun, serialStep] using serialRun_copies_copying k

theorem serialRun_cycle (cfg : Config) : serialRun (cycle cfg) Phase.idle = some Phase.idle := by
  simp [cycle, serialRun, serialStep, serialRun_append,
    serialRun_copies_waited _ (frameCopies_length_pos cfg)]

/-- The boundary calls of an iteration: the full cycle when the iteration
reaches its end, a prefix of it that the cycle accepts otherwise. -/
theorem iteration_calls (cfg : Config) (W : World) (i prev_frame : Nat) :
    ((iteration cfg W i prev_frame).2 ≠ none →
      calls (iteration cfg W i prev_frame).1 = cycle cfg) ∧
    ∃ p, serialRun (calls (iteration cfg W i prev_frame).1) Phase.idle = some p := by
  have hpos := frameCopies_length_pos cfg
  simp only [iteration]
  split_ifs
  · exact ⟨fun h => absurd rfl h, _, rfl⟩
  · exact ⟨fun h => absurd rfl h, _, rfl⟩
  · exact ⟨fun h => absurd rfl h, _, rfl⟩
  · exact ⟨fun h => absurd rfl h, _, rfl⟩
  · refine ⟨fun h => absurd rfl h, Phase.synced, ?_⟩
    rw [calls_append, calls_append, calls_copyPhase, serialRun_append, serialRun_append]
    simp [calls, Event.call, serialRun, serialStep, serialRun_copies_waited _ hpos]
  · have hc : calls (([Event.render (W.render (i + 1)), Event.waitForFrame prev_frame,
        Event.getColorPointer prev_frame, Event.detachTexture prev_frame,
        Event.mapResources prev_frame, Event.getMappedArray prev_frame] ++
        copyPhase cfg (W.copyOk i) prev_frame ++
        [Event.streamSynchronize prev_frame, Event.unmapResources prev_frame,
          Event.attachTexture prev_frame, Event.blit prev_frame, Event.swapBuffers])) =
        cycle cfg := by
      rw [calls_append, calls_append, calls_copyPhase]
      rfl
    refine ⟨fun _ => hc, Phase.idle, ?_⟩
    rw [hc]
    exact serialRun_cycle cfg

theorem mainLoop_calls (cfg : Config) (W : World) (n i prev_frame : Nat) :
    ((mainLoop cfg W n i prev_frame).2 = false →
      calls (mainLoop cfg W n i prev_frame).1 = (List.replicate n (cycle cfg)).flatten) ∧
    ∃ p, serialRun (calls (mainLoop cfg W n i prev_frame).1) Phase.idle = some p := by
  induction n generalizing i prev_frame with
  | zero => exact ⟨fun _ => rfl, Phase.idle, rfl⟩
  | succ n ih =>
    have hit := iteration_calls cfg W i prev_frame
    unfold mainLoop
    rcases hsplit : iteration cfg W i prev_frame with ⟨t, _ | new_frame⟩
    · rw [hsplit] at hit
      refine ⟨fun h => ?_, hit.2⟩
      simp at h
    · rw [hsplit] at hit
      have hc : calls t = cycle cfg := hit.1 (by simp)
      obtain ⟨hpat, p, hp⟩ := ih (i + 1) new_frame
      simp only
      rw [calls_append, hc]
      refine ⟨fun h => ?_, p, ?_⟩
      · rw [hpat h, List.replicate_succ, List.flatten_cons]
      · rw [serialRun_append, serialRun_cycle]
        exact hp

/-- C6, as stated, fails: the boundary calls of the program from start-up
on are not a repetition of render, wait, copy, sync, present, because the
dispatch before the loop is followed by the dispatch of the first iteration
with no wait in between. -/
theorem not_serialized_from_startup :
    serialRun (calls (run flyConfig okWorld 1).1) Phase.idle = none ∧
    (calls (run flyConfig okWorld 1).1).take 3 = [Call.render, Call.render, Call.wait] := by
  decide

/-- C6, amended: the first call of the program is the dispatch before the
loop; the boundary calls after it, in every run (with one buffer or two),
follow the cycle render, wait, copies, sync, blit, swap, every dispatch of
the loop being followed by a wait before the next dispatch and every wait
by the copies, the sync and the presentation of the frame; and when no
`assert` or `abort()` stops the run, the calls are exactly the first
dispatch followed by `n` full cycles. -/
theorem serialized_after_first_dispatch (cfg : Config) (W : World) (n : Nat) :
    (run cfg W n).1.head? = some (Event.render (W.render 0)) ∧
    (∃ p, serialRun (calls (run cfg W n).1.tail) Phase.idle = some p) ∧
    ((run cfg W n).2 = false →
      calls (run cfg W n).1 = Call.render :: (List.replicate n (cycle cfg)).flatten) := by
  obtain ⟨hpat, hp⟩ := mainLoop_calls cfg W n 0 (W.render 0)
  refine ⟨rfl, hp, fun h => ?_⟩
  simp only [run] at h ⊢
  simp only [calls, List.filterMap_cons, Event.call]
  exact congrArg _ (hpat h)

/-- C6 (amended) at two iterations of the program as configured in the
source. -/
theorem serialized_after_first_dispatch_witness :
    calls (run flyConfig okWorld 2).1 =
      Call.render :: (List.replicate 2 (cycle flyConfig)).flatten :=
  (serialized_after_first_dispatch flyConfig okWorld 2).2.2 (by decide)

/-! ### Copy failures -/

/-- C8 on the code: a failed copy does not stop the program.  When every
copy of the first frame fails, the failure of the last one is reported on
`cerr` and the iteration goes on to sync, unmap, blit and swap; when only
the first copy fails, the run is the same as when no copy fails, because
`res` is overwritten by the next copy; and for no configuration and no
world does the outcome of an iteration depend on the results of the
copies. -/
theorem copy_failure_not_fatal :
    (run flyConfig copyFailWorld 1 =
      (Event.render 0 :: ([Event.render 0, Event.waitForFrame 0, Event.getColorPointer 0,
          Event.detachTexture 0, Event.mapResources 0, Event.getMappedArray 0] ++
        (frameCopies flyConfig).map (Event.memcpy2D 0) ++
        [Event.logCopyFailed, Event.streamSynchronize 0, Event.unmapResources 0,
          Event.attachTexture 0, Event.blit 0, Event.swapBuffers]), false)) ∧
    run flyConfig firstCopyFailWorld 1 = run flyConfig okWorld 1 ∧
    ∀ (cfg : Config) (W : World) (f : Nat → Nat → Bool) (i prev_frame : Nat),
      (iteration cfg { W with copyOk := f } i prev_frame).2 =
        (iteration cfg W i prev_frame).2 := by
  refine ⟨by decide, by decide, ?_⟩
  intro cfg W f i prev_frame
  simp only [iteration]
  split_ifs <;> rfl

/-! ## Theorems: the camera update -/

section CameraTheorems

/-- A rotation by the angle 0 is the identity, whatever the axis. -/
theorem mat3_cast_angleAxis_zero (n v : Vec3 ℝ) :
    (mat3_cast (angleAxis ⟨Real.sin, Real.cos, Real.sqrt⟩ 0 n)).mulVec v = v := by
  ext <;> simp [mat3_cast, angleAxis, Mat3.mulVec]

/-- The scalar square of `cross(a, b)` for orthogonal unit vectors. -/
theorem cross_dot_self (a b : Vec3 ℝ) (ha : a.dot a = 1) (hb : b.dot b = 1)
    (hab : a.dot b = 0) : (a.cross b).dot (a.cross b) = 1 := by
  simp only [Vec3.dot, Vec3.cross] at *
  linear_combination (b.x * b.x + b.y * b.y + b.z * b.z) * ha + hb -
    (a.x * b.x + a.y * b.y + a.z * b.z) * hab

/-- Normalizing a vector of length 1 returns it. -/
theorem normalize_unit (v : Vec3 ℝ) (hv : v.dot v = 1) :
    v.normalize ⟨Real.sin, Real.cos, Real.sqrt⟩ = v := by
  ext <;> simp [Vec3.normalize, Vec3.scale, hv]

/-- The product of two matrices applied to a vector. -/
theorem mul_mulVec (a b : Mat3 ℝ) (v : Vec3 ℝ) :
    (a.mul b).mulVec v = a.mulVec (b.mulVec v) := by
  ext <;> simp only [Mat3.mul, Mat3.mulVec] <;> ring

/-- One update with no input: mouse delta `(0, 0)`, key accumulator
`(0, 0, 0)` and `dt = 0`.  For orthogonal unit vectors `fwd` and `up` it
keeps `eye`, `fwd` and `up` and sets `right` to `cross(fwd, up)`. -/
theorem cameraUpdate_zero (cam : CameraState ℝ) (hf : cam.fwd.dot cam.fwd = 1)
    (hu : cam.up.dot cam.up = 1) (hfu : cam.fwd.dot cam.up = 0) :
    cameraUpdate ⟨Real.sin, Real.cos, Real.sqrt⟩ cam (0, 0) (0, 0, 0) 0 =
      { cam with right := cam.fwd.cross cam.up } := by
  have hr := cross_dot_self cam.fwd cam.up hf hu hfu
  simp only [cameraUpdate, neg_zero, zero_mul, mul_zero, Int.cast_zero, mul_mulVec,
    mat3_cast_angleAxis_zero, normalize_unit _ hf, normalize_unit _ hu, normalize_unit _ hr]
  ext <;> simp [Vec3.add, Vec3.scale]

/-- The matrix of a unit quaternion preserves scalar products. -/
theorem mat3_cast_dot (q : Quat ℝ) (hq : q.w * q.w + q.x * q.x + q.y * q.y + q.z * q.z = 1)
    (v w : Vec3 ℝ) : ((mat3_cast q).mulVec v).dot ((mat3_cast q).mulVec w) = v.dot w := by
  simp only [Vec3.dot, Mat3.mulVec, mat3_cast]
  linear_combination (4 * ((q.x * q.x + q.y * q.y + q.z * q.z) * (v.x * w.x + v.y * w.y + v.z * w.z)
    - (q.x * v.x + q.y * v.y + q.z * v.z) * (q.x * w.x + q.y * w.y + q.z * w.z))) * hq

/-- The quaternion of a rotation about an axis of length 1 is a unit
quaternion. -/
theorem angleAxis_unit (angle : ℝ) (n : Vec3 ℝ) (hn : n.dot n = 1) :
    (angleAxis ⟨Real.sin, Real.cos, Real.sqrt⟩ angle n).w *
        (angleAxis ⟨Real.sin, Real.cos, Real.sqrt⟩ angle n).w +
      (angleAxis ⟨Real.sin, Real.cos, Real.sqrt⟩ angle n).x *
        (angleAxis ⟨Real.sin, Real.cos, Real.sqrt⟩ angle n).x +
      (angleAxis ⟨Real.sin, Real.cos, Real.sqrt⟩ angle n).y *
        (angleAxis ⟨Real.sin, Real.cos, Real.sqrt⟩ angle n).y +
      (angleAxis ⟨Real.sin, Real.cos, Real.sqrt⟩ angle n).z *
        (angleAxis ⟨Real.sin, Real.cos, Real.sqrt⟩ angle n).z = 1 := by
  have hcs := Real.cos_sq_add_sin_sq (angle * (1 / 2))
  simp only [angleAxis, Vec3.dot] at *
  linear_combination hcs + Real.sin (angle * (1 / 2)) ^ 2 * hn

/-- A rotation about an axis of length 1 preserves scalar products. -/
theorem rot_dot (angle : ℝ) (n : Vec3 ℝ) (hn : n.dot n = 1) (v w : Vec3 ℝ) :
    ((mat3_cast (angleAxis ⟨Real.sin, Real.cos, Real.sqrt⟩ angle n)).mulVec v).dot
      ((mat3_cast (angleAxis ⟨Real.sin, Real.cos, Real.sqrt⟩ angle n)).mulVec w) = v.dot w :=
  mat3_cast_dot _ (angleAxis_unit angle n hn) v w

/-- A rotation fixes its axis. -/
theorem rot_axis (angle : ℝ) (n : Vec3 ℝ) :
    (mat3_cast (angleAxis ⟨Real.sin, Real.cos, Real.sqrt⟩ angle n)).mulVec n = n := by
  ext <;> simp only [Mat3.mulVec, mat3_cast, angleAxis] <;> ring

theorem dot_comm (a b : Vec3 ℝ) : a.dot b = b.dot a := by
  simp only [Vec3.dot]; ring

theorem cross_dot_left (a b : Vec3 ℝ) : (a.cross b).dot a = 0 := by
  simp only [Vec3.dot, Vec3.cross]; ring

theorem cross_dot_right (a b : Vec3 ℝ) : (a.cross b).dot b = 0 := by
  simp only [Vec3.dot, Vec3.cross]; ring

/-- The three rotations of the update (about `right`, then about the new
`up`, then about the new `fwd`) turn orthogonal unit vectors `fwd`, `up`
and `cross(fwd, up)` into three orthogonal unit vectors. -/
theorem rotated_frame (a b c : ℝ) (f u : Vec3 ℝ) (hf : f.dot f = 1) (hu : u.dot u = 1)
    (hfu : f.dot u = 0) (r0 up1 fwd1 up2 right2 : Vec3 ℝ) (R U F : Mat3 ℝ)
    (hr0 : r0 = f.cross u)
    (hR : R = mat3_cast (angleAxis ⟨Real.sin, Real.cos, Real.sqrt⟩ a r0))
    (hup1 : up1 = R.mulVec u)
    (hU : U = mat3_cast (angleAxis ⟨Real.sin, Real.cos, Real.sqrt⟩ b up1))
    (hfwd1 : fwd1 = (U.mul R).mulVec f)
    (hF : F = mat3_cast (angleAxis ⟨Real.sin, Real.cos, Real.sqrt⟩ c fwd1))
    (hup2 : up2 = F.mulVec up1)
    (hright2 : right2 = (F.mul U).mulVec r0) :
    fwd1.dot fwd1 = 1 ∧ up2.dot up2 = 1 ∧ right2.dot right2 = 1 ∧
      fwd1.dot up2 = 0 ∧ fwd1.dot right2 = 0 ∧ up2.dot right2 = 0 := by
  have n0 : r0.dot r0 = 1 := hr0 ▸ cross_dot_self f u hf hu hfu
  have r0f : r0.dot f = 0 := hr0 ▸ cross_dot_left f u
  have r0u : r0.dot u = 0 := hr0 ▸ cross_dot_right f u
  have Rdot : ∀ v w, (R.mulVec v).dot (R.mulVec w) = v.dot w :=
    fun v w => hR ▸ rot_dot a r0 n0 v w
  have Rax : R.mulVec r0 = r0 := hR ▸ rot_axis a r0
  have n1 : up1.dot up1 = 1 := by rw [hup1, Rdot, hu]
  have Udot : ∀ v w, (U.mulVec v).dot (U.mulVec w) = v.dot w :=
    fun v w => hU ▸ rot_dot b up1 n1 v w
  have Uax : U.mulVec up1 = up1 := hU ▸ rot_axis b up1
  have efwd1 : fwd1 = U.mulVec (R.mulVec f) := by rw [hfwd1, mul_mulVec]
  have n2 : fwd1.dot fwd1 = 1 := by rw [efwd1, Udot, Rdot, hf]
  have Fdot : ∀ v w, (F.mulVec v).dot (F.mulVec w) = v.dot w :=
    fun v w => hF ▸ rot_dot c fwd1 n2 v w
  have Fax : F.mulVec fwd1 = fwd1 := hF ▸ rot_axis c fwd1
  have eright2 : right2 = F.mulVec (U.mulVec r0) := by rw [hright2, mul_mulVec]
  have r0up1 : r0.dot up1 = 0 := by
    rw [hup1, ← Rax, Rdot, r0u]
  have fu1 : fwd1.dot up1 = 0 := by
    rw [efwd1, ← Uax, Udot, hup1, Rdot, hfu]
  have fr : fwd1.dot (U.mulVec r0) = 0 := by
    rw [efwd1, Udot, ← Rax, Rdot, dot_comm, r0f]
  have ur : up1.dot (U.mulVec r0) = 0 := by
    rw [← Uax, Udot, dot_comm, r0up1]
  refine ⟨n2, ?_, ?_, ?_, ?_, ?_⟩
  · rw [hup2, Fdot, n1]
  · rw [eright2, Fdot, Udot, n0]
  · rw [hup2, ← Fax, Fdot, fu1]
  · rw [eright2, ← Fax, Fdot, fr]
  · rw [hup2, eright2, Fdot, ur]

/-- The update in exact real arithmetic keeps the frame orthonormal: for
orthogonal unit vectors `fwd` and `up` and every input, the new `fwd`, `up`
and `right` have length 1 and are pairwise orthogonal.  This is a fact about
the exact update only; it says nothing about the rounded `float` run of the
program, where lines 263-265 restore the lengths and not the angles. -/
theorem cameraUpdate_orthonormal (cam : CameraState ℝ) (mouse_delta : ℝ × ℝ)
    (key_movement : Int × Int × Int) (time_delta : ℝ)
    (hf : cam.fwd.dot cam.fwd = 1) (hu : cam.up.dot cam.up = 1)
    (hfu : cam.fwd.dot cam.up = 0) :
    (cameraUpdate ⟨Real.sin, Real.cos, Real.sqrt⟩ cam mouse_delta key_movement
      time_delta).Orthonormal := by
  obtain ⟨h1, h2, h3, h4, h5, h6⟩ := rotated_frame (mouse_delta.2 * mouse_speed)
    (-mouse_delta.1 * mouse_speed) ((key_movement.2.2 : ℝ) * rotate_speed * time_delta)
    cam.fwd cam.up hf hu hfu _ _ _ _ _ _ _ _ rfl rfl rfl rfl rfl rfl rfl rfl
  simp only [CameraState.Orthonormal, cameraUpdate, normalize_unit _ h1, normalize_unit _ h2,
    normalize_unit _ h3]
  exact ⟨h1, h2, h3, h4, h5, h6⟩

/-- Sequences of updates in exact real arithmetic keep an orthonormal frame
orthonormal. -/
theorem cameraRun_orthonormal (cam : CameraState ℝ)
    (inputs : List ((ℝ × ℝ) × (Int × Int × Int) × ℝ)) (h : cam.Orthonormal) :
    (cameraRun ⟨Real.sin, Real.cos, Real.sqrt⟩ cam inputs).Orthonormal := by
  induction inputs generalizing cam with
  | nil => exact h
  | cons inp rest ih =>
    exact ih _ (cameraUpdate_orthonormal cam inp.1 inp.2.1 inp.2.2 h.1 h.2.1 h.2.2.2.1)

theorem initialCamera_orthonormal : (initialCamera : CameraState ℝ).Orthonormal := by
  simp [CameraState.Orthonormal, initialCamera, Vec3.dot]

/-- C9, as stated, fails at the initial state of the program: its `fwd`,
`up` and `right` are mutually orthogonal unit vectors, yet one update with
mouse delta `(0, 0)`, key accumulator `(0, 0, 0)` and `dt = 0` changes
`right` from `(1, 0, 0)` to `cross(fwd, up) = (-1, 0, 0)`. -/
theorem zero_update_changes_initial_right :
    (initialCamera : CameraState ℝ).Orthonormal ∧
    (cameraUpdate ⟨Real.sin, Real.cos, Real.sqrt⟩ initialCamera (0, 0) (0, 0, 0) 0).right =
      ⟨-1, 0, 0⟩ ∧
    cameraUpdate ⟨Real.sin, Real.cos, Real.sqrt⟩ initialCamera (0, 0) (0, 0, 0) 0 ≠
      initialCamera := by
  have hupd := cameraUpdate_zero (initialCamera : CameraState ℝ)
    (by simp [initialCamera, Vec3.dot]) (by simp [initialCamera, Vec3.dot])
    (by simp [initialCamera, Vec3.dot])
  have hright : (cameraUpdate ⟨Real.sin, Real.cos, Real.sqrt⟩ initialCamera (0, 0) (0, 0, 0)
      0).right = ⟨-1, 0, 0⟩ := by
    rw [hupd]
    simp [initialCamera, Vec3.cross]
  refine ⟨initialCamera_orthonormal, hright, fun heq => ?_⟩
  rw [heq] at hright
  have hx := congrArg Vec3.x hright
  simp only [initialCamera] at hx
  norm_num at hx

/-- C9, amended: for every camera state whose `fwd` and `up` are orthogonal
unit vectors, one update with mouse delta `(0, 0)`, key accumulator
`(0, 0, 0)` and `dt = 0` leaves `eye`, `fwd` and `up` unchanged (the three
rotations are the identity and the translation is zero) and sets `right` to
`cross(fwd, up)`; so the state is unchanged when `right = cross(fwd, up)`. -/
theorem camera_zero_input_update (cam : CameraState ℝ) (hf : cam.fwd.dot cam.fwd = 1)
    (hu : cam.up.dot cam.up = 1) (hfu : cam.fwd.dot cam.up = 0) :
    (cameraUpdate ⟨Real.sin, Real.cos, Real.sqrt⟩ cam (0, 0) (0, 0, 0) 0).eye = cam.eye ∧
    (cameraUpdate ⟨Real.sin, Real.cos, Real.sqrt⟩ cam (0, 0) (0, 0, 0) 0).fwd = cam.fwd ∧
    (cameraUpdate ⟨Real.sin, Real.cos, Real.sqrt⟩ cam (0, 0) (0, 0, 0) 0).up = cam.up ∧
    (cameraUpdate ⟨Real.sin, Real.cos, Real.sqrt⟩ cam (0, 0) (0, 0, 0) 0).right =
      cam.fwd.cross cam.up ∧
    (cam.right = cam.fwd.cross cam.up →
      cameraUpdate ⟨Real.sin, Real.cos, Real.sqrt⟩ cam (0, 0) (0, 0, 0) 0 = cam) := by
  rw [cameraUpdate_zero cam hf hu hfu]
  refine ⟨rfl, rfl, rfl, rfl, fun h => ?_⟩
  rw [← h]

/-- C9 (amended) at the state reached from the initial state of the program
by one update without input: `fwd = (0, 0, 1)`, `up = (0, 1, 0)`,
`right = (-1, 0, 0)`. -/
theorem camera_zero_input_update_witness :
    cameraUpdate ⟨Real.sin, Real.cos, Real.sqrt⟩
        ({ eye := ⟨0, 0, 0⟩, fwd := ⟨0, 0, 1⟩, up := ⟨0, 1, 0⟩, right := ⟨-1, 0, 0⟩ } :
          CameraState ℝ) (0, 0) (0, 0, 0) 0 =
      { eye := ⟨0, 0, 0⟩, fwd := ⟨0, 0, 1⟩, up := ⟨0, 1, 0⟩, right := ⟨-1, 0, 0⟩ } :=
  (camera_zero_input_update
    { eye := ⟨0, 0, 0⟩, fwd := ⟨0, 0, 1⟩, up := ⟨0, 1, 0⟩, right := ⟨-1, 0, 0⟩ }
    (by simp [Vec3.dot]) (by simp [Vec3.dot]) (by simp [Vec3.dot])).2.2.2.2
    (by simp [Vec3.cross])

end CameraTheorems

/-! ## Theorems: the key handler -/

/-- The three components of `key_movement` evolve independently. -/
theorem processKeys_axes (evs : List KeyEvent) (st : InputState) :
    (processKeys st evs).key_movement =
      (axisRun (fun k => (cur_movement k).1) st.key_movement.1 evs,
       axisRun (fun k => (cur_movement k).2.1) st.key_movement.2.1 evs,
       axisRun (fun k => (cur_movement k).2.2) st.key_movement.2.2 evs) := by
  induction evs generalizing st with
  | nil => rfl
  | cons e rest ih =>
    simp only [processKeys, axisRun]
    rw [ih]
    unfold windowKeyHandler
    split_ifs <;> rfl

/-- Whether a key is down after the events, in terms of `held`. -/
theorem downFrom_eq_held (k : Int) (evs : List KeyEvent) (b : Bool) :
    downFrom k b evs = (held k evs || (b && !evs.any (KeyEvent.isRelease k))) := by
  induction evs generalizing b with
  | nil => simp [downFrom, held]
  | cons e rest ih =>
    simp only [downFrom, held, List.any_cons]
    by_cases hp : e.isPress k = true
    · have hr : e.isRelease k = false := by
        simp only [KeyEvent.isPress, KeyEvent.isRelease, Bool.and_eq_true,
          decide_eq_true_eq] at hp ⊢
        simp [hp.2]
      rw [if_pos hp, ih, hp, hr]
      cases b <;> cases held k rest <;> cases rest.any (KeyEvent.isRelease k) <;> rfl
    · have hp' : e.isPress k = false := by simpa using hp
      rw [if_neg hp, hp']
      by_cases hr : e.isRelease k = true
      · rw [if_pos hr, ih, hr]
        cases b <;> cases held k rest <;> cases rest.any (KeyEvent.isRelease k) <;> rfl
      · have hr' : e.isRelease k = false := by simpa using hr
        rw [if_neg hr, ih, hr']
        cases b <;> cases held k rest <;> cases rest.any (KeyEvent.isRelease k) <;> rfl

theorem downFrom_false_eq_held (k : Int) (evs : List KeyEvent) :
    downFrom k false evs = held k evs := by
  rw [downFrom_eq_held]
  simp

/-- One component of `key_movement`, with `kp` the key that adds 1 and `kn`
the key that subtracts 1: when the presses and releases of both keys
alternate, the component is the difference of the two keys being down. -/
theorem axis_spec (kp kn : Int) (hne : kp ≠ kn) (delta : Int → Int) (hp : delta kp = 1)
    (hn : delta kn = -1) (ho : ∀ k, k ≠ kp → k ≠ kn → delta k = 0)
    (evs : List KeyEvent) (bp bn : Bool) (c : Int) (hc : c = ind bp - ind bn)
    (hap : alternatesFrom kp bp evs = true) (han : alternatesFrom kn bn evs = true) :
    axisRun delta c evs = ind (downFrom kp bp evs) - ind (downFrom kn bn evs) := by
  induction evs generalizing bp bn c with
  | nil => simpa [axisRun, downFrom] using hc
  | cons e rest ih =>
    obtain ⟨key, action⟩ := e
    have hne' : ¬ kn = kp := fun h => hne h.symm
    by_cases h1 : key = kp
    · subst h1
      cases action <;>
        simp [alternatesFrom, downFrom, axisRun, KeyEvent.isPress, KeyEvent.isRelease, hne]
          at hap han ⊢
      · obtain ⟨hb, hap⟩ := hap
        subst hb
        refine ih false bn _ ?_ hap han
        rw [hc, hp]
        cases bn <;> decide
      · obtain ⟨hb, hap⟩ := hap
        subst hb
        refine ih true bn _ ?_ hap han
        rw [hc, hp]
        cases bn <;> decide
      · exact ih bp bn c hc hap han
    · by_cases h2 : key = kn
      · subst h2
        cases action <;>
          simp [alternatesFrom, downFrom, axisRun, KeyEvent.isPress, KeyEvent.isRelease, hne']
            at hap han ⊢
        · obtain ⟨hb, han⟩ := han
          subst hb
          refine ih bp false _ ?_ hap han
          rw [hc, hn]
          cases bp <;> decide
        · obtain ⟨hb, han⟩ := han
          subst hb
          refine ih bp true _ ?_ hap han
          rw [hc, hn]
          cases bp <;> decide
        · exact ih bp bn c hc hap han
      · have hd := ho key h1 h2
        cases action <;>
          simp [alternatesFrom, downFrom, axisRun, KeyEvent.isPress, KeyEvent.isRelease, h1, h2,
            hd] at hap han ⊢
        · refine ih bp bn _ ?_ hap han
          rw [hc]
          cases bp <;> cases bn <;> decide
        · refine ih bp bn _ ?_ hap han
          rw [hc]
          cases bp <;> cases bn <;> decide
        · exact ih bp bn c hc hap han

theorem alternatesFrom_take (k : Int) (evs : List KeyEvent) (b : Bool) (n : Nat)
    (h : alternatesFrom k b evs = true) : alternatesFrom k b (evs.take n) = true := by
  induction evs generalizing b n with
  | nil => simp [alternatesFrom]
  | cons e rest ih =>
    cases n with
    | zero => simp [alternatesFrom]
    | succ n =>
      simp only [List.take_succ_cons, alternatesFrom] at h ⊢
      split_ifs at h ⊢
      · simp only [Bool.and_eq_true] at h ⊢
        exact ⟨h.1, ih _ _ h.2⟩
      · simp only [Bool.and_eq_true] at h ⊢
        exact ⟨h.1, ih _ _ h.2⟩
      · exact ih _ _ h

theorem i8_add_sub (a d : Int) (h1 : -128 ≤ a) (h2 : a ≤ 127) : i8 (i8 (a + d) - d) = a := by
  unfold i8
  omega

theorem i8_of_range (a : Int) (h1 : -128 ≤ a) (h2 : a ≤ 127) : i8 a = a := by
  unfold i8
  omega

/-- The accumulator after a sequence in which the presses and releases of
every movement key alternate, starting from `(0, 0, 0)`. -/
theorem processKeys_net_held (evs : List KeyEvent) (cursor : CursorMode)
    (halt : ∀ k ∈ movementKeys, alternates k evs = true) :
    (processKeys (initialInput cursor) evs).key_movement =
      (heldCount GLFW_KEY_D evs - heldCount GLFW_KEY_A evs,
       heldCount GLFW_KEY_W evs - heldCount GLFW_KEY_S evs,
       heldCount GLFW_KEY_E evs - heldCount GLFW_KEY_Q evs) := by
  have hW := halt GLFW_KEY_W (by simp [movementKeys])
  have hA := halt GLFW_KEY_A (by simp [movementKeys])
  have hS := halt GLFW_KEY_S (by simp [movementKeys])
  have hD := halt GLFW_KEY_D (by simp [movementKeys])
  have hQ := halt GLFW_KEY_Q (by simp [movementKeys])
  have hE := halt GLFW_KEY_E (by simp [movementKeys])
  have hx := axis_spec GLFW_KEY_D GLFW_KEY_A (by decide) (fun k => (cur_movement k).1)
    (by decide) (by decide)
    (by
      intro k h1 h2
      simp only [cur_movement]
      split_ifs <;> rfl)
    evs false false 0 (by decide) hD hA
  have hy := axis_spec GLFW_KEY_W GLFW_KEY_S (by decide) (fun k => (cur_movement k).2.1)
    (by decide) (by decide)
    (by
      intro k h1 h2
      simp only [cur_movement]
      split_ifs <;> rfl)
    evs false false 0 (by decide) hW hS
  have hz := axis_spec GLFW_KEY_E GLFW_KEY_Q (by decide) (fun k => (cur_movement k).2.2)
    (by decide) (by decide)
    (by
      intro k h1 h2
      simp only [cur_movement]
      split_ifs <;> rfl)
    evs false false 0 (by decide) hE hQ
  rw [processKeys_axes]
  simp only [initialInput, hx, hy, hz, downFrom_false_eq_held, heldCount, ind]

/-- C11 (the accumulator is the net of the held keys): starting from
`key_movement = (0, 0, 0)`, after any sequence of key events in which the
presses and releases of each movement key alternate beginning with a press
(repeats and events of other keys anywhere), `key_movement` is
`(held D - held A, held W - held S, held E - held Q)`; after every prefix of
the sequence each component is -1, 0 or 1; a press followed by the release
of the same key restores an accumulator of `int8_t` components; and a
repeat of any key, or any event of Escape or Enter, leaves it unchanged. -/
theorem key_movement_net_held (evs : List KeyEvent) (cursor : CursorMode)
    (halt : ∀ k ∈ movementKeys, alternates k evs = true) :
    (processKeys (initialInput cursor) evs).key_movement =
      (heldCount GLFW_KEY_D evs - heldCount GLFW_KEY_A evs,
       heldCount GLFW_KEY_W evs - heldCount GLFW_KEY_S evs,
       heldCount GLFW_KEY_E evs - heldCount GLFW_KEY_Q evs) ∧
    (∀ n, ∀ c ∈ [(processKeys (initialInput cursor) (evs.take n)).key_movement.1,
        (processKeys (initialInput cursor) (evs.take n)).key_movement.2.1,
        (processKeys (initialInput cursor) (evs.take n)).key_movement.2.2],
      c = -1 ∨ c = 0 ∨ c = 1) ∧
    (∀ (st : InputState) (k : Int),
      (∀ c ∈ [st.key_movement.1, st.key_movement.2.1, st.key_movement.2.2],
        -128 ≤ c ∧ c ≤ 127) →
      (windowKeyHandler (windowKeyHandler st k Action.GLFW_PRESS) k
        Action.GLFW_RELEASE).key_movement = st.key_movement) ∧
    (∀ (st : InputState) (k : Int) (a : Action),
      (∀ c ∈ [st.key_movement.1, st.key_movement.2.1, st.key_movement.2.2],
        -128 ≤ c ∧ c ≤ 127) →
      (a = Action.GLFW_REPEAT ∨ k = GLFW_KEY_ESCAPE ∨ k = GLFW_KEY_ENTER) →
      (windowKeyHandler st k a).key_movement = st.key_movement) := by
  refine ⟨processKeys_net_held evs cursor halt, ?_, ?_, ?_⟩
  · intro n c hc
    have hpre := processKeys_net_held (evs.take n) cursor
      (fun k hk => alternatesFrom_take k evs false n (halt k hk))
    rw [hpre] at hc
    simp only [heldCount, List.mem_cons, List.mem_singleton, List.not_mem_nil, or_false]
      at hc
    rcases hc with rfl | rfl | rfl <;>
      split_ifs <;> simp
  · intro st k hst
    simp only [List.mem_cons, List.mem_singleton, List.not_mem_nil, or_false, forall_eq_or_imp,
      forall_eq] at hst
    obtain ⟨h1, h2, h3⟩ := hst
    simp only [windowKeyHandler, reduceCtorEq, if_false, if_true]
    rw [i8_add_sub _ _ h1.1 h1.2, i8_add_sub _ _ h2.1 h2.2, i8_add_sub _ _ h3.1 h3.2]
  · intro st k a hst hcase
    simp only [List.mem_cons, List.mem_singleton, List.not_mem_nil, or_false, forall_eq_or_imp,
      forall_eq] at hst
    obtain ⟨h1, h2, h3⟩ := hst
    rcases hcase with rfl | rfl | rfl
    · simp [windowKeyHandler]
    · cases a <;>
        simp [windowKeyHandler, cur_movement, i8_of_range _ h1.1 h1.2, i8_of_range _ h2.1 h2.2,
          i8_of_range _ h3.1 h3.2]
    · cases a <;>
        simp [windowKeyHandler, cur_movement, GLFW_KEY_ENTER, GLFW_KEY_ESCAPE,
          i8_of_range _ h1.1 h1.2, i8_of_range _ h2.1 h2.2, i8_of_range _ h3.1 h3.2]

/-- C11 at the sequence press W, repeat W, press D, press Escape, release W,
press Q. -/
theorem key_movement_net_held_witness :
    (processKeys (initialInput CursorMode.GLFW_CURSOR_NORMAL)
      [⟨GLFW_KEY_W, Action.GLFW_PRESS⟩, ⟨GLFW_KEY_W, Action.GLFW_REPEAT⟩,
       ⟨GLFW_KEY_D, Action.GLFW_PRESS⟩, ⟨GLFW_KEY_ESCAPE, Action.GLFW_PRESS⟩,
       ⟨GLFW_KEY_W, Action.GLFW_RELEASE⟩, ⟨GLFW_KEY_Q, Action.GLFW_PRESS⟩]).key_movement =
      (1, 0, -1) :=
  (key_movement_net_held
    [⟨GLFW_KEY_W, Action.GLFW_PRESS⟩, ⟨GLFW_KEY_W, Action.GLFW_REPEAT⟩,
     ⟨GLFW_KEY_D, Action.GLFW_PRESS⟩, ⟨GLFW_KEY_ESCAPE, Action.GLFW_PRESS⟩,
     ⟨GLFW_KEY_W, Action.GLFW_RELEASE⟩, ⟨GLFW_KEY_Q, Action.GLFW_PRESS⟩]
    CursorMode.GLFW_CURSOR_NORMAL (by decide)).1

/-! ## Theorems: start-up -/

theorem createSlots_not_assert (W : StartupWorld) (n i : Nat) (acc : List Resource)
    (line : Nat) : (createSlots W n i acc).2 ≠ StartupEnd.assertFailed line := by
  induction n generalizing i acc with
  | zero => simp [createSlots]
  | succ n ih =>
    simp only [createSlots]
    split_ifs
    · simp
    · simp
    · exact ih _ _

/-- C12, as stated, fails for the divisibility error: with image dimensions
that are not a multiple of the tile grid (the width wraps at 32 bits to 902
and leaves the remainder 2 modulo `tiles_x = 3`; the image, 902 by 1024, is
a size a window can have), a scene argument and no failing call, the error
is detected by the `assert` of line 155 when the window, the framebuffers,
the textures and the renderer have already been created. -/
theorem divisibility_checked_after_creation :
    img_dims wrapConfig.out_dim wrapConfig.tiles_x wrapConfig.tiles_y = (902, 1024) ∧
    windowSizeOk (img_dims wrapConfig.out_dim wrapConfig.tiles_x wrapConfig.tiles_y) = true ∧
    (img_dims wrapConfig.out_dim wrapConfig.tiles_x wrapConfig.tiles_y).1 %
      wrapConfig.tiles_x = 2 ∧
    startup wrapConfig 2 okStartup =
      ([Resource.window, Resource.framebuffers, Resource.textures, Resource.renderer],
        StartupEnd.assertFailed 155) := by
  decide

/-- C12, amended: a missing scene path (`argc < 2`) is reported and ends the
program with `exit(EXIT_FAILURE)` before anything has been created; image
dimensions that are not a multiple of the tile grid are detected, when GLFW,
the window (of a size a window can have) and GLEW are set up, by the
`assert`s of lines 155-156, and whenever one of them stops the program the
window, the framebuffers, the textures and the renderer have been created
and no stream and no interop registration has. -/
theorem config_errors_at_startup (cfg : Config) (argc : Nat) (W : StartupWorld) :
    (argc < 2 → startup cfg argc W = ([], StartupEnd.exitFailure 118)) ∧
    (2 ≤ argc → W.glfwInitOk = true →
      windowSizeOk (img_dims cfg.out_dim cfg.tiles_x cfg.tiles_y) = true →
      W.windowOk = true → W.glewOk = true →
      ((img_dims cfg.out_dim cfg.tiles_x cfg.tiles_y).1 % cfg.tiles_x ≠ 0 ∨
        (img_dims cfg.out_dim cfg.tiles_x cfg.tiles_y).2 % cfg.tiles_y ≠ 0) →
      (startup cfg argc W).2 = StartupEnd.assertFailed 155 ∨
        (startup cfg argc W).2 = StartupEnd.assertFailed 156) ∧
    (∀ line, (startup cfg argc W).2 = StartupEnd.assertFailed line →
      (startup cfg argc W).1 =
        [Resource.window, Resource.framebuffers, Resource.textures, Resource.renderer]) := by
  refine ⟨fun h => by simp [startup, h], ?_, ?_⟩
  · intro h2 h3 hsize h4 h5 hdiv
    have h2' : ¬ argc < 2 := by omega
    simp only [startup, h2', h3, hsize, h4, h5, if_false, Bool.true_eq_false]
    split_ifs with ha hb
    · exact Or.inl rfl
    · exact Or.inr rfl
    · rcases hdiv with h | h
      · exact absurd h ha
      · exact absurd h hb
  · intro line hline
    simp only [startup] at hline ⊢
    split_ifs at hline ⊢ <;> first
      | rfl
      | exact absurd hline (createSlots_not_assert W _ _ _ line)

/-- C12 (amended) at the program as configured, started without a scene
argument, and at the configuration of width 902 with 3 tiles across,
started with a scene argument and no failing call. -/
theorem config_errors_at_startup_witness :
    startup flyConfig 1 okStartup = ([], StartupEnd.exitFailure 118) ∧
    ((startup wrapConfig 2 okStartup).2 = StartupEnd.assertFailed 155 ∨
      (startup wrapConfig 2 okStartup).2 = StartupEnd.assertFailed 156) ∧
    (startup wrapConfig 2 okStartup).1 =
      [Resource.window, Resource.framebuffers, Resource.textures, Resource.renderer] :=
  ⟨(config_errors_at_startup flyConfig 1 okStartup).1 (by decide),
    (config_errors_at_startup wrapConfig 2 okStartup).2.1 (by decide) rfl (by decide) rfl rfl
      (Or.inl (by decide)),
    (config_errors_at_startup wrapConfig 2 okStartup).2.2 155 (by decide)⟩

/-! ## Theorems: reading a vector member -/

/-- The loop over the elements when every conversion succeeds. -/
theorem readElems_all {T : Type} (fromJsonValue : JsonValue → T → Bool × T) (item : T)
    (elems : List JsonValue) (vec : List T)
    (h : ∀ e ∈ elems, (fromJsonValue e item).1 = true) :
    readElems fromJsonValue item elems vec =
      (true, vec ++ elems.map fun e => (fromJsonValue e item).2) := by
  induction elems generalizing vec with
  | nil => simp [readElems]
  | cons e rest ih =>
    have he := h e (List.mem_cons_self _ _)
    simp only [readElems, he, Bool.true_eq_false, if_false, List.map_cons]
    rw [ih _ (fun e' he' => h e' (List.mem_cons_of_mem _ he'))]
    simp

/-- The loop over the elements when some conversion fails. -/
theorem readElems_some_fails {T : Type} (fromJsonValue : JsonValue → T → Bool × T) (item : T)
    (elems : List JsonValue) (vec : List T)
    (h : ∃ e ∈ elems, (fromJsonValue e item).1 = false) :
    readElems fromJsonValue item elems vec = (false, []) := by
  induction elems generalizing vec with
  | nil =>
    obtain ⟨e, he, -⟩ := h
    cases he
  | cons e rest ih =>
    simp only [readElems]
    split_ifs with hf
    · rfl
    · obtain ⟨e', he', hfail⟩ := h
      rcases List.mem_cons.1 he' with rfl | hmem
      · exact absurd hfail hf
      · exact ih _ ⟨e', hmem, hfail⟩

/-- C13 (`readMember` for `std::vector<T>`): for every JSON object, every tag
and an empty `vec`, (1) with no member named `tag` the call returns true and
`vec` stays empty; (2) when the member found is not an array it returns
false and `vec` stays empty; (3) when it is an array and `fromJsonValue`
succeeds on every element it returns true and `vec` holds the converted
elements, one per array element, in array order; (4) when `fromJsonValue`
fails on some element it returns false and `vec` is empty. -/
theorem readMember_vector {T : Type} (fromJsonValue : JsonValue → T → Bool × T) (item : T)
    (members : List (String × JsonValue)) (tag : String) :
    ((∀ m ∈ members, m.1 ≠ tag) →
      readMember fromJsonValue item (JsonValue.object members) tag [] = some (true, [])) ∧
    (∀ v, FindMember members tag = some v → (∀ elems, v ≠ JsonValue.array elems) →
      readMember fromJsonValue item (JsonValue.object members) tag [] = some (false, [])) ∧
    (∀ elems, FindMember members tag = some (JsonValue.array elems) →
      (∀ e ∈ elems, (fromJsonValue e item).1 = true) →
      readMember fromJsonValue item (JsonValue.object members) tag [] =
        some (true, elems.map fun e => (fromJsonValue e item).2)) ∧
    (∀ elems, FindMember members tag = some (JsonValue.array elems) →
      (∃ e ∈ elems, (fromJsonValue e item).1 = false) →
      readMember fromJsonValue item (JsonValue.object members) tag [] = some (false, [])) := by
  refine ⟨?_, ?_, ?_, ?_⟩
  · intro hno
    have hfind : FindMember members tag = none := by
      simp only [FindMember, Option.map_eq_none', List.find?_eq_none]
      intro m hm
      simpa using hno m hm
    simp [readMember, hfind]
  · intro v hv hna
    cases v with
    | array elems => exact absurd rfl (hna elems)
    | _ => simp only [readMember, hv, List.isEmpty_nil, Bool.true_eq_false, if_false]
  · intro elems hv hall
    simp only [readMember, hv, List.isEmpty_nil, Bool.true_eq_false, if_false]
    rw [readElems_all fromJsonValue item elems [] hall]
    simp
  · intro elems hv hfail
    simp only [readMember, hv, List.isEmpty_nil, Bool.true_eq_false, if_false]
    rw [readElems_some_fails fromJsonValue item elems [] hfail]

/-- C13 for `std::string` elements: the member `"a"` of
`{"a": ["x", "y"], "b": 3}`. -/
theorem readMember_vector_witness :
    readMember fromJsonValueString ""
        (JsonValue.object [("a", JsonValue.array [JsonValue.string "x", JsonValue.string "y"]),
          ("b", JsonValue.number 3)]) "a" [] =
      some (true, ["x", "y"]) :=
  (readMember_vector fromJsonValueString ""
    [("a", JsonValue.array [JsonValue.string "x", JsonValue.string "y"]),
      ("b", JsonValue.number 3)] "a").2.2.1
    [JsonValue.string "x", JsonValue.string "y"] (by simp [FindMember])
    (by
      intro e he
      simp only [List.mem_cons, List.mem_singleton, List.not_mem_nil, or_false] at he
      rcases he with rfl | rfl <;> rfl)

end Fly
